import Mathlib

/-!
Verification of the preview-sdk core against its natural-language
specification.  The TypeScript sources are shallowly embedded as pure Lean
functions:

* `JsVal` models dynamic JavaScript values delivered through `postMessage`.
* The `MessageBridge` class (src/core/MessageBridge.ts) becomes explicit
  state passing over `BridgeState`, with externally visible actions
  (`postMessage` calls, `onMessage` invocations) collected as `BridgeEffect`s.
* The `FieldRegistry` class becomes functions over an association-list
  registry, with the page's node tree embedded as a flat list of elements
  carrying parent pointers (`DElem`).
* The `ContentUpdater` class becomes a small event-loop semantics: each
  `updateField` call is split into its synchronous part (`UEvent.call`) and
  the continuation that runs when its debounce timer fires (`UEvent.fire`).
-/

namespace PreviewSDK

/-- Dynamic JavaScript value, as carried by a `message` event's `data`
field.  `vundef` stands for `undefined` (also the result of reading an
absent object property). -/
inductive JsVal where
  | vstr (s : String)
  | vnum (n : Int)
  | vbool (b : Bool)
  | vnull
  | vundef
  | varr (xs : List JsVal)
  | vobj (fields : List (String × JsVal))

/-- Property read `o[k]`: first binding wins; reading a property off a
non-object (or an absent key) yields `undefined`. -/
def getField (v : JsVal) (k : String) : JsVal :=
  match v with
  | .vobj fields =>
    match fields.find? (fun f => f.1 == k) with
    | some f => f.2
    | none => .vundef
  | _ => (.vundef)

/-- The JavaScript `in` operator: key presence on an object, the value may
be `undefined`. -/
def hasKey (fields : List (String × JsVal)) (k : String) : Bool :=
  fields.any (fun f => f.1 == k)

/-- JavaScript truthiness of a value. -/
def jsTruthy : JsVal → Bool
  | .vstr s => !(s == "")
  | .vnum n => !(n == 0)
  | .vbool b => b
  | .vnull => false
  | .vundef => false
  | .varr _ => true
  | .vobj _ => true

/-- The JavaScript `typeof v === 'object'` test (`null` is an object, and
so are arrays). -/
def typeofIsObject : JsVal → Bool
  | .vobj _ => true
  | .varr _ => true
  | .vnull => true
  | _ => false

/-- Whether a dynamic value is a string (`typeof v === 'string'`). -/
def isStr : JsVal → Bool
  | .vstr _ => true
  | _ => false

/-- Whether a dynamic value is a number (`typeof v === 'number'`). -/
def isNum : JsVal → Bool
  | .vnum _ => true
  | _ => false

/-- Whether a dynamic value is exactly `undefined`. -/
def isUndef : JsVal → Bool
  | .vundef => true
  | _ => false

/-- Test that a dynamic value is a given string (`v === 's'`). -/
def isStrEq (v : JsVal) (s : String) : Bool :=
  match v with
  | .vstr t => t == s
  | _ => false

/-- The JavaScript `String(v)` coercion restricted to the values the model
can build (array elements that are `null`/`undefined` stringify to the
empty string, as in JS `Array.prototype.toString`). -/
def jsString : JsVal → String
  | .vstr s => s
  | .vnum n => toString n
  | .vbool b => if b then "true" else "false"
  | .vnull => "null"
  | .vundef => "undefined"
  | .varr xs => String.intercalate ","
      (xs.map (fun x =>
        match x with
        | .vstr s => s
        | .vnum n => toString n
        | .vbool b => if b then "true" else "false"
        | _ => ""))
  | .vobj _ => "[object Object]"

/-! ### Origin allow-list (MessageBridge.isOriginAllowed)

The source turns a pattern containing `*` into the regular expression
`^pattern.replace(/\*/g, '.*')$` and tests the origin against it.  For the
pattern alphabet actually used by origins this means: `*` matches any
character sequence and `.` matches any single character (the dot is left
unescaped by the source); every other character is a literal. -/

/-- One token of the regular expression the source builds from an
allow-list pattern. -/
inductive RTok where
  | star
  | dot
  | lit (c : Char)

/-- Tokenize an allow-list pattern exactly as
`new RegExp('^' + allowed.replace(/\*/g, '.*') + '$')` would interpret it
(over the pattern alphabet of origins). -/
def patToks (s : String) : List RTok :=
  s.data.map (fun c => if c == '*' then RTok.star else if c == '.' then RTok.dot else RTok.lit c)

/-- Anchored regular-expression matching for the tokenized pattern, written
with an explicit fuel so that it is structurally recursive (every step
consumes a token or a character, so the fuel used by `rmatch` below never
runs out). -/
def rmatchAux : Nat → List RTok → List Char → Bool
  | 0, _, _ => false
  | _ + 1, [], [] => true
  | _ + 1, [], _ :: _ => false
  | fuel + 1, RTok.star :: ts, cs =>
    rmatchAux fuel ts cs ||
      (match cs with
       | [] => false
       | _ :: cs' => rmatchAux fuel (RTok.star :: ts) cs')
  | _ + 1, RTok.dot :: _, [] => false
  | fuel + 1, RTok.dot :: ts, _ :: cs => rmatchAux fuel ts cs
  | _ + 1, RTok.lit _ :: _, [] => false
  | fuel + 1, RTok.lit c :: ts, c' :: cs => c == c' && rmatchAux fuel ts cs

/-- Anchored matching of an origin against a tokenized wildcard pattern. -/
def rmatch (ts : List RTok) (cs : List Char) : Bool :=
  rmatchAux (ts.length + cs.length + 1) ts cs

/-- MessageBridge.isOriginAllowed: exact membership in the allow-list, or a
wildcard pattern (one containing `*`) matching the origin. -/
def isOriginAllowed (allowedOrigins : List String) (origin : String) : Bool :=
  allowedOrigins.contains origin ||
    allowedOrigins.any (fun allowed =>
      if allowed.data.contains '*' then rmatch (patToks allowed) origin.data
      else false)

/-! ### Message validation (MessageBridge.isValidStudioMessage) -/

/-- MessageBridge.isValidStudioMessage: structural validation of an inbound
message, per message type. -/
def isValidStudioMessage (message : JsVal) : Bool :=
  if !(typeofIsObject message) || message matches .vnull then false
  else
    if !(isStr (getField message "type")) then false
    else if !(isNum (getField message "timestamp")) then false
    else
      match getField message "type" with
      | .vstr "init" => isStr (getField message "studioOrigin")
      | .vstr "field-update" =>
        isStr (getField message "entryId") &&
        isStr (getField message "fieldApiId") &&
        isStr (getField message "fieldType") &&
        !(isUndef (getField message "newValue"))
      | .vstr "field-focus" =>
        isStr (getField message "entryId") && isStr (getField message "fieldApiId")
      | .vstr "content-saved" => isStr (getField message "entryId")
      | .vstr "disconnect" => true
      | _ => false

/-! ### MessageBridge state machine -/

/-- Mutable state of a MessageBridge instance. -/
structure BridgeState where
  isConnected : Bool
  studioOrigin : Option String
  messageQueue : List JsVal
  isDestroyed : Bool

/-- Externally visible actions of the bridge: a `window.parent.postMessage`
call, or an invocation of the configured `onMessage` handler. -/
inductive BridgeEffect where
  | posted (message : JsVal) (targetOrigin : String)
  | forwarded (message : JsVal)

/-- The falsiness test `!this.studioOrigin` (null or empty string). -/
def originFalsy : Option String → Bool
  | none => true
  | some s => s == ""

/-- MessageBridge.sendMessage: queue while unconnected, otherwise post to
the established Studio origin.  Returns the new state, the boolean result,
and the effects performed. -/
def sendMessage (st : BridgeState) (message : JsVal) :
    BridgeState × Bool × List BridgeEffect :=
  if st.isDestroyed then (st, false, [])
  else if !st.isConnected || originFalsy st.studioOrigin then
    ({ st with messageQueue := st.messageQueue ++ [message] }, false, [])
  else
    (st, true, [BridgeEffect.posted message (st.studioOrigin.getD "")])

/-- MessageBridge.flushMessageQueue: copy the queue, clear it, and send
each queued message in enqueue order. -/
def flushMessageQueue (st : BridgeState) : BridgeState × List BridgeEffect :=
  let messages := st.messageQueue
  let st1 := { st with messageQueue := [] }
  messages.foldl
    (fun acc m =>
      let r := sendMessage acc.1 m
      (r.1, acc.2 ++ r.2.2))
    (st1, [])

/-- MessageBridge.handleConnection: on the first connection establish the
Studio origin and flush the queue; afterwards a no-op. -/
def handleConnection (st : BridgeState) (origin : String) :
    BridgeState × List BridgeEffect :=
  if !st.isConnected then
    flushMessageQueue { st with isConnected := true, studioOrigin := some origin }
  else (st, [])

/-- MessageBridge.handleMessage: the `message` event listener.  Destroyed
bridges ignore everything; then the sender origin and the message shape are
validated; `init` messages may establish the connection; finally the
message is forwarded to the `onMessage` handler. -/
def handleMessage (allowedOrigins : List String) (st : BridgeState)
    (origin : String) (data : JsVal) : BridgeState × List BridgeEffect :=
  if st.isDestroyed then (st, [])
  else if !(isOriginAllowed allowedOrigins origin) then (st, [])
  else if !(isValidStudioMessage data) then (st, [])
  else
    let r := if isStrEq (getField data "type") "init" then handleConnection st origin
             else (st, [])
    (r.1, r.2 ++ [BridgeEffect.forwarded data])

/-- MessageBridge.destroy: mark destroyed and clear all state.  The
listener removal is reflected by the `isDestroyed` guard in
`handleMessage`. -/
def destroyBridge (_st : BridgeState) : BridgeState :=
  { isConnected := false, studioOrigin := none, messageQueue := [], isDestroyed := true }

/-! ### MessageBridge lemmas -/

lemma sendMessage_connected (st : BridgeState) (m : JsVal) (o : String)
    (hd : st.isDestroyed = false) (hc : st.isConnected = true)
    (ho : st.studioOrigin = some o) (hne : o ≠ "") :
    sendMessage st m = (st, true, [BridgeEffect.posted m o]) := by
  simp [sendMessage, hd, hc, ho, originFalsy, hne]

lemma flush_fold_connected (q : List JsVal) (st : BridgeState)
    (acc : List BridgeEffect) (o : String)
    (hd : st.isDestroyed = false) (hc : st.isConnected = true)
    (ho : st.studioOrigin = some o) (hne : o ≠ "") :
    q.foldl (fun acc m =>
        let r := sendMessage acc.1 m
        (r.1, acc.2 ++ r.2.2)) (st, acc)
      = (st, acc ++ q.map (fun m => BridgeEffect.posted m o)) := by
  induction q generalizing acc with
  | nil => simp
  | cons m q ih =>
    simp only [List.foldl_cons, sendMessage_connected st m o hd hc ho hne, List.map_cons]
    rw [ih]
    simp

lemma flushMessageQueue_connected (st : BridgeState) (o : String)
    (hd : st.isDestroyed = false) (hc : st.isConnected = true)
    (ho : st.studioOrigin = some o) (hne : o ≠ "") :
    flushMessageQueue st =
      ({ st with messageQueue := [] },
        st.messageQueue.map (fun m => BridgeEffect.posted m o)) := by
  unfold flushMessageQueue
  have h := flush_fold_connected st.messageQueue { st with messageQueue := [] } [] o
    (by simpa using hd) (by simpa using hc) (by simpa using ho) hne
  simpa using h

lemma handleConnection_first (st : BridgeState) (o : String)
    (hd : st.isDestroyed = false) (hc : st.isConnected = false) (hne : o ≠ "") :
    handleConnection st o =
      ({ st with isConnected := true, studioOrigin := some o, messageQueue := [] },
        st.messageQueue.map (fun m => BridgeEffect.posted m o)) := by
  unfold handleConnection
  rw [hc]
  have h := flushMessageQueue_connected
    { st with isConnected := true, studioOrigin := some o } o
    (by simpa using hd) (by simp) (by simp) hne
  simpa using h

/-! ### Claim theorems about the MessageBridge -/

/-- C2: a message whose sender origin is not in the allow-list (exact match
or single-wildcard subdomain pattern), or whose shape fails the per-type
structural validation, is dropped: the bridge's state (`isConnected`,
`studioOrigin`, queue) is unchanged and nothing is forwarded to the
`onMessage` handler (and nothing is posted).  The final two conjuncts pin
down the wildcard semantics on the specification's examples:
`*.example.com` matches `editor.example.com` but not `example.org`. -/
theorem messageBridge_drops_disallowed_and_invalid
    (cfg : List String) (st : BridgeState) (origin : String) (data : JsVal) :
    ((isOriginAllowed cfg origin = false ∨ isValidStudioMessage data = false) →
      handleMessage cfg st origin data = (st, [])) ∧
    isOriginAllowed ["*.example.com"] "editor.example.com" = true ∧
    isOriginAllowed ["*.example.com"] "example.org" = false := by
  refine ⟨?_, by decide, by decide⟩
  intro h
  unfold handleMessage
  by_cases hd : st.isDestroyed
  · simp [hd]
  · rcases h with h | h <;> simp [hd, h]

/-- Witness for C2: a concrete message from a disallowed origin, and a
structurally invalid message from an allowed origin, are both dropped
without state change or forwarding. -/
theorem messageBridge_drops_disallowed_and_invalid_witness :
    (handleMessage ["https://app.hygraph.com"]
        { isConnected := false, studioOrigin := none, messageQueue := [], isDestroyed := false }
        "https://evil.example"
        (JsVal.vobj [("type", JsVal.vstr "init"), ("timestamp", JsVal.vnum 1),
          ("studioOrigin", JsVal.vstr "https://evil.example")]) =
      ({ isConnected := false, studioOrigin := none, messageQueue := [], isDestroyed := false }, [])) ∧
    (handleMessage ["https://app.hygraph.com"]
        { isConnected := false, studioOrigin := none, messageQueue := [], isDestroyed := false }
        "https://app.hygraph.com" (JsVal.vobj [("type", JsVal.vstr "init")]) =
      ({ isConnected := false, studioOrigin := none, messageQueue := [], isDestroyed := false }, [])) :=
  ⟨(messageBridge_drops_disallowed_and_invalid _ _ _ _).1 (Or.inl (by decide)),
   (messageBridge_drops_disallowed_and_invalid _ _ _ _).1 (Or.inr (by decide))⟩

/-- C5: a `sendMessage` call made before a peer origin is established
appends the message to the outbound queue and returns `false`; the first
valid `init` message from an allowed origin establishes that origin and
flushes the queued messages in enqueue order (before forwarding the `init`
itself); afterwards every sent message is posted only to the established
origin. -/
theorem messageBridge_queue_and_flush
    (cfg : List String) (st : BridgeState) (m : JsVal) (o : String) (d : JsVal) :
    (st.isDestroyed = false →
      (st.isConnected = false ∨ originFalsy st.studioOrigin = true) →
      sendMessage st m = ({ st with messageQueue := st.messageQueue ++ [m] }, false, [])) ∧
    (st.isDestroyed = false → st.isConnected = false →
      isOriginAllowed cfg o = true → isValidStudioMessage d = true →
      isStrEq (getField d "type") "init" = true → o ≠ "" →
      handleMessage cfg st o d =
        ({ st with isConnected := true, studioOrigin := some o, messageQueue := [] },
          st.messageQueue.map (fun m0 => BridgeEffect.posted m0 o) ++
            [BridgeEffect.forwarded d])) ∧
    (∀ o0, st.isDestroyed = false → st.isConnected = true →
      st.studioOrigin = some o0 → o0 ≠ "" →
      sendMessage st m = (st, true, [BridgeEffect.posted m o0])) := by
  refine ⟨?_, ?_, ?_⟩
  · intro hd hq
    unfold sendMessage
    rcases hq with hq | hq <;> simp [hd, hq]
  · intro hd hc hallow hvalid hinit hne
    unfold handleMessage
    rw [handleConnection_first st o hd hc hne]
    simp [hd, hallow, hvalid, hinit]
  · intro o0 hd hc ho hne
    exact sendMessage_connected st m o0 hd hc ho hne

/-- Witness for C5: two queued messages are flushed, in order and to the
exact established origin, by a concrete `init` from an allowed origin;
a pre-establishment send queues and returns false; a post-establishment
send posts only to the established origin. -/
theorem messageBridge_queue_and_flush_witness :
    (sendMessage
        { isConnected := false, studioOrigin := none, messageQueue := [], isDestroyed := false }
        (JsVal.vstr "m1") =
      ({ isConnected := false, studioOrigin := none, messageQueue := [JsVal.vstr "m1"],
         isDestroyed := false }, false, [])) ∧
    (handleMessage ["https://app.hygraph.com"]
        { isConnected := false, studioOrigin := none,
          messageQueue := [JsVal.vstr "m1", JsVal.vstr "m2"], isDestroyed := false }
        "https://app.hygraph.com"
        (JsVal.vobj [("type", JsVal.vstr "init"), ("timestamp", JsVal.vnum 1),
          ("studioOrigin", JsVal.vstr "https://app.hygraph.com")]) =
      ({ isConnected := true, studioOrigin := some "https://app.hygraph.com",
         messageQueue := [], isDestroyed := false },
        [BridgeEffect.posted (JsVal.vstr "m1") "https://app.hygraph.com",
         BridgeEffect.posted (JsVal.vstr "m2") "https://app.hygraph.com",
         BridgeEffect.forwarded (JsVal.vobj [("type", JsVal.vstr "init"),
           ("timestamp", JsVal.vnum 1),
           ("studioOrigin", JsVal.vstr "https://app.hygraph.com")])])) ∧
    (sendMessage
        { isConnected := true, studioOrigin := some "https://app.hygraph.com",
          messageQueue := [], isDestroyed := false } (JsVal.vstr "m3") =
      ({ isConnected := true, studioOrigin := some "https://app.hygraph.com",
         messageQueue := [], isDestroyed := false }, true,
        [BridgeEffect.posted (JsVal.vstr "m3") "https://app.hygraph.com"])) := by
  refine ⟨?_, ?_, ?_⟩
  · exact (messageBridge_queue_and_flush [] _ (JsVal.vstr "m1") "" JsVal.vnull).1
      rfl (Or.inl rfl)
  · exact (messageBridge_queue_and_flush ["https://app.hygraph.com"] _ JsVal.vnull
      "https://app.hygraph.com" _).2.1 rfl rfl (by decide) (by decide) (by decide)
      (by decide)
  · exact (messageBridge_queue_and_flush [] _ (JsVal.vstr "m3") "" JsVal.vnull).2.2
      "https://app.hygraph.com" rfl rfl rfl (by decide)

/-- C9: once connected, processing any later valid `init` message (from the
same or a different allow-listed origin) leaves the whole bridge state —
established origin, connected flag and queue — unchanged, forwards the
message, and posts nothing (no re-flush); subsequent outbound messages are
still posted to the first-established origin. -/
theorem messageBridge_later_init_is_noop
    (cfg : List String) (st : BridgeState) (o : String) (d : JsVal)
    (m : JsVal) (o0 : String) :
    (st.isConnected = true → st.isDestroyed = false →
      isOriginAllowed cfg o = true → isValidStudioMessage d = true →
      handleMessage cfg st o d = (st, [BridgeEffect.forwarded d])) ∧
    (st.isConnected = true → st.isDestroyed = false →
      st.studioOrigin = some o0 → o0 ≠ "" →
      sendMessage st m = (st, true, [BridgeEffect.posted m o0])) := by
  constructor
  · intro hc hd hallow hvalid
    unfold handleMessage handleConnection
    by_cases hinit : isStrEq (getField d "type") "init" <;>
      simp [hd, hallow, hvalid, hinit, hc]
  · intro hc hd ho hne
    exact sendMessage_connected st m o0 hd hc ho hne

/-- Witness for C9: a second `init`, from a different allow-listed origin,
leaves a connected bridge unchanged and triggers no posts; a follow-up send
still goes to the first origin. -/
theorem messageBridge_later_init_is_noop_witness :
    (handleMessage ["https://app.hygraph.com", "http://localhost:3000"]
        { isConnected := true, studioOrigin := some "https://app.hygraph.com",
          messageQueue := [], isDestroyed := false }
        "http://localhost:3000"
        (JsVal.vobj [("type", JsVal.vstr "init"), ("timestamp", JsVal.vnum 2),
          ("studioOrigin", JsVal.vstr "http://localhost:3000")]) =
      ({ isConnected := true, studioOrigin := some "https://app.hygraph.com",
         messageQueue := [], isDestroyed := false },
        [BridgeEffect.forwarded (JsVal.vobj [("type", JsVal.vstr "init"),
          ("timestamp", JsVal.vnum 2),
          ("studioOrigin", JsVal.vstr "http://localhost:3000")])])) ∧
    (sendMessage
        { isConnected := true, studioOrigin := some "https://app.hygraph.com",
          messageQueue := [], isDestroyed := false } (JsVal.vstr "m4") =
      ({ isConnected := true, studioOrigin := some "https://app.hygraph.com",
         messageQueue := [], isDestroyed := false }, true,
        [BridgeEffect.posted (JsVal.vstr "m4") "https://app.hygraph.com"])) :=
  ⟨(messageBridge_later_init_is_noop ["https://app.hygraph.com", "http://localhost:3000"]
      _ "http://localhost:3000" _ JsVal.vnull "").1 rfl rfl (by decide) (by decide),
   (messageBridge_later_init_is_noop [] _ "" JsVal.vnull (JsVal.vstr "m4")
      "https://app.hygraph.com").2 rfl rfl rfl (by decide)⟩

/-! ## The page's node tree

Elements are embedded as a flat list in document (pre-order) order, each
carrying a parent pointer, the three `data-hygraph-*` metadata attributes
plus the rich-text format preference attribute (`Option String`: `none`
means the attribute is absent), and the mutable content surfaces touched by
the ContentUpdater (`textContent`, form `value`, `checked`, `innerHTML`,
media attributes, inline background color, and the two auxiliary location
data attributes). -/
structure DElem where
  id : Nat
  parent : Option Nat
  tag : String
  inputType : String
  entryAttr : Option String
  fieldAttr : Option String
  chainAttr : Option String
  rtFormatAttr : Option String
  text : String
  value : String
  checked : Bool
  innerHTML : String
  src : String
  alt : String
  width : Int
  height : Int
  href : String
  styleBg : String
  dataLat : Option String
  dataLng : Option String
deriving DecidableEq

/-- A document is its elements in document order. -/
abbrev Doc := List DElem

/-- Look an element up by identity (DOM node identity is modelled by the
`id` field). -/
def findById (doc : Doc) (i : Nat) : Option DElem :=
  doc.find? (fun e => e.id == i)

/-- Walk the parent chain looking for the nearest ancestor that carries the
`data-hygraph-entry-id` attribute.  The fuel is only a termination device:
on well-formed documents (parent ids strictly smaller, ids distinct) the
chain visits pairwise distinct elements, so `doc.length` steps always
suffice. -/
def closestEntryAux (doc : Doc) : Nat → Option Nat → Option DElem
  | 0, _ => none
  | _ + 1, none => none
  | fuel + 1, some p =>
    match findById doc p with
    | none => none
    | some a =>
      if a.entryAttr.isSome then some a else closestEntryAux doc fuel a.parent

/-- The DOM call `element.closest('[data-hygraph-entry-id]')`:
ancestor-or-self search for the attribute. -/
def closestEntryElem (doc : Doc) (e : DElem) : Option DElem :=
  if e.entryAttr.isSome then some e else closestEntryAux doc doc.length e.parent

/-- Whether `target` occurs in the (proper) ancestor chain starting at the
given parent pointer. -/
def hasAncestorAux (doc : Doc) : Nat → Option Nat → Nat → Bool
  | 0, _, _ => false
  | _ + 1, none, _ => false
  | fuel + 1, some p, target =>
    if p == target then true
    else
      match findById doc p with
      | none => false
      | some a => hasAncestorAux doc fuel a.parent target

/-- Whether `c` is a proper descendant of `e`. -/
def isDescendantOf (doc : Doc) (c e : DElem) : Bool :=
  hasAncestorAux doc doc.length c.parent e.id

/-- The DOM call `e.querySelectorAll(...)` for the selectors the registry
uses: the proper descendants of `e`, in document order, satisfying a
predicate on the element's own attributes. -/
def descendantsWith (doc : Doc) (e : DElem) (p : DElem → Bool) : List DElem :=
  doc.filter (fun c => isDescendantOf doc c e && p c)

/-! ## FieldRegistry (the inheritance-aware version) -/

/-- A RegisteredElement.  The element reference is its node identity; the
`lastUpdated : Date.now()` timestamp of the source is not modelled (no
claim mentions it). -/
structure Reg where
  id : Nat
  entryId : String
  fieldApiId : Option String
  componentChainRaw : Option String
deriving DecidableEq

/-- The registry object: an association list from registry key to the list
of registered elements, in key insertion order. -/
abbrev Registry := List (String × List Reg)

/-- FieldRegistry.createRegistryKey: `entryId` joined with the field api id
by a colon; the field part is omitted when absent (the callers map an empty
attribute value to `undefined` first). -/
def createRegistryKey (entryId : String) (fieldApiId : Option String) : String :=
  match fieldApiId with
  | some f => entryId ++ ":" ++ f
  | none => entryId

/-- The idiom `element.getAttribute(...) || undefined`: an empty attribute
value collapses to `undefined`. -/
def orUndefined : Option String → Option String
  | some s => if s == "" then none else some s
  | none => none

/-- Insert into one key's element list: replace the registration whose
element is already present (matched by node identity), else push. -/
def regListInsert : List Reg → Reg → List Reg
  | [], reg => [reg]
  | r0 :: rest, reg =>
    if r0.id == reg.id then reg :: rest else r0 :: regListInsert rest reg

/-- Insert a registration under a key, creating the key at the end on first
use (JS string-keyed property insertion order). -/
def regInsert : Registry → String → Reg → Registry
  | [], k, reg => [(k, [reg])]
  | (k0, l) :: rest, k, reg =>
    if k0 == k then (k0, regListInsert l reg) :: rest
    else (k0, l) :: regInsert rest k reg

/-- All registered elements, in `Object.values` iteration order. -/
def allRegs (r : Registry) : List Reg :=
  (r.map (fun kv => kv.2)).flatten

/-- The registration `registerElement` would produce for a node, `none`
when the node's own `data-hygraph-entry-id` is absent or empty. -/
def explicitReg (e : DElem) : Option Reg :=
  match e.entryAttr with
  | none => none
  | some entryId =>
    if entryId == "" then none
    else some { id := e.id, entryId := entryId,
                fieldApiId := orUndefined e.fieldAttr,
                componentChainRaw := orUndefined e.chainAttr }

/-- FieldRegistry.registerElement: register a node under its own entry id
(a falsy entry attribute aborts). -/
def registerElement (r : Registry) (e : DElem) : Registry :=
  match explicitReg e with
  | none => r
  | some reg => regInsert r (createRegistryKey reg.entryId reg.fieldApiId) reg

/-- The registration `registerInheritedElement` would produce for a node: a
truthy field api id is required, and the entry id is taken from the nearest
ancestor (via `closest`) carrying the entry attribute; `none` when no such
ancestor exists or either value is falsy. -/
def inheritedReg (doc : Doc) (e : DElem) : Option Reg :=
  match e.fieldAttr with
  | none => none
  | some f =>
    if f == "" then none
    else
      match closestEntryElem doc e with
      | none => none
      | some anc =>
        match anc.entryAttr with
        | none => none
        | some entryId =>
          if entryId == "" then none
          else some { id := e.id, entryId := entryId, fieldApiId := some f,
                      componentChainRaw := orUndefined e.chainAttr }

/-- FieldRegistry.registerInheritedElement: register a field-only node
under the entry id inherited from its nearest ancestor; when no ancestor
declares one the registry is left unchanged (the source emits at most a
debug warning, it never throws). -/
def registerInheritedElement (doc : Doc) (r : Registry) (e : DElem) : Registry :=
  match inheritedReg doc e with
  | none => r
  | some reg => regInsert r (createRegistryKey reg.entryId reg.fieldApiId) reg

/-- FieldRegistry.hasHygraphAttributes. -/
def hasHygraphAttributes (e : DElem) : Bool :=
  e.entryAttr.isSome

/-- FieldRegistry.scanElement: register the node itself when it carries the
entry attribute, then its descendants with an explicit entry id, then its
descendants that are inheritance candidates. -/
def scanElement (doc : Doc) (r : Registry) (e : DElem) : Registry :=
  let r1 := if hasHygraphAttributes e then registerElement r e else r
  let r2 := (descendantsWith doc e (fun c => c.entryAttr.isSome)).foldl registerElement r1
  (descendantsWith doc e (fun c => c.fieldAttr.isSome && c.entryAttr.isNone)).foldl
    (registerInheritedElement doc) r2

/-- FieldRegistry.scanExistingElements: scan every element with an explicit
entry id, then register every inheritance candidate
(`[data-hygraph-field-api-id]:not([data-hygraph-entry-id])`). -/
def scanExistingElements (doc : Doc) (r : Registry) : Registry :=
  let r1 := (doc.filter (fun e => e.entryAttr.isSome)).foldl (scanElement doc) r
  (doc.filter (fun e => e.fieldAttr.isSome && e.entryAttr.isNone)).foldl
    (registerInheritedElement doc) r1

/-- FieldRegistry.unregisterElement: drop the node from every key's list,
removing keys that become empty. -/
def unregisterElement (r : Registry) (e : DElem) : Registry :=
  r.filterMap (fun kv =>
    let l := kv.2.filter (fun reg => !(reg.id == e.id))
    if l.isEmpty then none else some (kv.1, l))

/-- FieldRegistry.updateElementRegistration: unregister then re-register
according to the node's current attributes (explicit first, inherited as
fallback). -/
def updateElementRegistration (doc : Doc) (r : Registry) (e : DElem) : Registry :=
  let r1 := unregisterElement r e
  if hasHygraphAttributes e then registerElement r1 e
  else if e.fieldAttr.isSome then registerInheritedElement doc r1 e
  else r1

/-- One MutationRecord, restricted to what the observer consumes: added
element nodes of a `childList` record, or the target and attribute name of
an `attributes` record. -/
inductive Mutation where
  | childList (addedIds : List Nat)
  | attrChange (targetId : Nat) (attributeName : String)

/-- The body of the MutationObserver callback for one record. -/
def handleMutationRecord (doc : Doc) (r : Registry) (m : Mutation) : Registry :=
  match m with
  | .childList added =>
    added.foldl
      (fun r i =>
        match findById doc i with
        | none => r
        | some e =>
          let r1 := scanElement doc r e
          if e.fieldAttr.isSome && e.entryAttr.isNone then
            registerInheritedElement doc r1 e
          else r1) r
  | .attrChange target attrName =>
    if attrName.data.take 13 = "data-hygraph-".data then
      match findById doc target with
      | none => r
      | some e => updateElementRegistration doc r e
    else r

/-- Mutable state of a FieldRegistry instance. -/
structure RegState where
  registry : Registry
  isDestroyed : Bool

/-- FieldRegistry.refresh: no-op after destruction, else a full rescan. -/
def refreshReg (doc : Doc) (st : RegState) : RegState :=
  if st.isDestroyed then st
  else { st with registry := scanExistingElements doc st.registry }

/-- The MutationObserver callback over a batch of records (guarded by the
`isDestroyed` check; after `destroy` the observer is also disconnected). -/
def observerCallbackReg (doc : Doc) (st : RegState) (muts : List Mutation) : RegState :=
  if st.isDestroyed then st
  else { st with registry := muts.foldl (handleMutationRecord doc) st.registry }

/-- FieldRegistry.destroy: disconnect the observer and clear the index. -/
def destroyReg (_st : RegState) : RegState :=
  { registry := [], isDestroyed := true }

/-- FieldRegistry.getElementsForEntryField: every registered element (over
all keys) matching the entry and field ids exactly. -/
def getElementsForEntryField (r : Registry) (entryId fieldApiId : String) : List Reg :=
  (allRegs r).filter (fun reg =>
    reg.entryId == entryId && reg.fieldApiId == some fieldApiId)

/-- Well-formedness of a document: node identities are distinct, parent
pointers go to earlier (smaller-id) elements that are present in the
document, and attribute values, when present, are non-empty (an element
"declares" an id by carrying the attribute with a real value). -/
def WfDoc (doc : Doc) : Prop :=
  (doc.map (fun e => e.id)).Nodup ∧
  (∀ e ∈ doc, ∀ p ∈ e.parent, p < e.id ∧ ∃ a ∈ doc, a.id = p) ∧
  (∀ e ∈ doc, e.entryAttr ≠ some "" ∧ e.fieldAttr ≠ some "")

/-- The registration any scan-path call can produce for a given element:
the explicit one when the entry attribute is present, otherwise the
inherited one. -/
def theReg (doc : Doc) (e : DElem) : Option Reg :=
  if e.entryAttr.isSome then explicitReg e else inheritedReg doc e

/-- A registration is the canonical registration of some document
element. -/
def FromDoc (doc : Doc) (reg : Reg) : Prop :=
  ∃ e ∈ doc, theReg doc e = some reg

/-! ### Registry membership lemmas -/

lemma allRegs_cons (k : String) (l : List Reg) (rest : Registry) :
    allRegs ((k, l) :: rest) = l ++ allRegs rest := by
  simp [allRegs]

lemma mem_regListInsert_self (l : List Reg) (reg : Reg) :
    reg ∈ regListInsert l reg := by
  induction l with
  | nil => simp [regListInsert]
  | cons r0 rest ih =>
    by_cases h : r0.id == reg.id <;> simp [regListInsert, h, ih]

lemma mem_regListInsert_of_mem (l : List Reg) (reg r0 : Reg)
    (h : r0 ∈ l) (hc : r0.id ≠ reg.id ∨ r0 = reg) :
    r0 ∈ regListInsert l reg := by
  induction l with
  | nil => cases h
  | cons r1 rest ih =>
    rcases List.mem_cons.mp h with h | h
    · subst h
      by_cases h1 : r0.id == reg.id
      · rcases hc with hc | hc
        · exact absurd (by simpa using h1) hc
        · subst hc
          simp [regListInsert, h1, mem_regListInsert_self]
      · simp [regListInsert, h1]
    · by_cases h1 : r1.id == reg.id <;> simp [regListInsert, h1, ih h, h]

lemma mem_of_mem_regListInsert (l : List Reg) (reg r0 : Reg)
    (h : r0 ∈ regListInsert l reg) : r0 ∈ l ∨ r0 = reg := by
  induction l with
  | nil => simpa [regListInsert] using h
  | cons r1 rest ih =>
    by_cases h1 : r1.id == reg.id
    · simp only [regListInsert, h1, if_pos] at h
      rcases List.mem_cons.mp h with h | h
      · exact Or.inr h
      · exact Or.inl (List.mem_cons_of_mem _ h)
    · simp only [regListInsert, h1] at h
      rcases List.mem_cons.mp h with h | h
      · exact Or.inl (by simp [h])
      · rcases ih h with h | h
        · exact Or.inl (List.mem_cons_of_mem _ h)
        · exact Or.inr h

lemma mem_allRegs_regInsert_self (r : Registry) (k : String) (reg : Reg) :
    reg ∈ allRegs (regInsert r k reg) := by
  induction r with
  | nil => simp [regInsert, allRegs]
  | cons kv rest ih =>
    obtain ⟨k0, l⟩ := kv
    by_cases h : k0 == k
    · simp [regInsert, h, allRegs_cons, mem_regListInsert_self]
    · simp only [regInsert, h, if_neg, Bool.false_eq_true, not_false_iff, allRegs_cons]
      exact List.mem_append_right _ ih

lemma mem_allRegs_regInsert_of_mem (r : Registry) (k : String) (reg r0 : Reg)
    (h : r0 ∈ allRegs r) (hc : r0.id ≠ reg.id ∨ r0 = reg) :
    r0 ∈ allRegs (regInsert r k reg) := by
  induction r with
  | nil => simp [allRegs] at h
  | cons kv rest ih =>
    obtain ⟨k0, l⟩ := kv
    rw [allRegs_cons] at h
    by_cases hk : k0 == k
    · simp only [regInsert, hk, if_pos, allRegs_cons]
      rcases List.mem_append.mp h with h | h
      · exact List.mem_append_left _ (mem_regListInsert_of_mem l reg r0 h hc)
      · exact List.mem_append_right _ h
    · simp only [regInsert, hk, Bool.false_eq_true, if_neg, not_false_iff, allRegs_cons]
      rcases List.mem_append.mp h with h | h
      · exact List.mem_append_left _ h
      · exact List.mem_append_right _ (ih h)

lemma mem_of_mem_allRegs_regInsert (r : Registry) (k : String) (reg r0 : Reg)
    (h : r0 ∈ allRegs (regInsert r k reg)) : r0 ∈ allRegs r ∨ r0 = reg := by
  induction r with
  | nil => simpa [regInsert, allRegs] using h
  | cons kv rest ih =>
    obtain ⟨k0, l⟩ := kv
    by_cases hk : k0 == k
    · simp only [regInsert, hk, if_pos, allRegs_cons] at h
      rcases List.mem_append.mp h with h | h
      · rcases mem_of_mem_regListInsert l reg r0 h with h | h
        · exact Or.inl (by rw [allRegs_cons]; exact List.mem_append_left _ h)
        · exact Or.inr h
      · exact Or.inl (by rw [allRegs_cons]; exact List.mem_append_right _ h)
    · simp only [regInsert, hk, Bool.false_eq_true, if_neg, not_false_iff,
        allRegs_cons] at h
      rcases List.mem_append.mp h with h | h
      · exact Or.inl (by rw [allRegs_cons]; exact List.mem_append_left _ h)
      · rcases ih h with h | h
        · exact Or.inl (by rw [allRegs_cons]; exact List.mem_append_right _ h)
        · exact Or.inr h

/-! ### Canonical registrations -/

lemma explicitReg_id (e : DElem) (reg : Reg) (h : explicitReg e = some reg) :
    reg.id = e.id := by
  unfold explicitReg at h
  split at h
  · cases h
  · split at h
    · cases h
    · injection h with h
      rw [← h]

lemma inheritedReg_id (doc : Doc) (e : DElem) (reg : Reg)
    (h : inheritedReg doc e = some reg) : reg.id = e.id := by
  unfold inheritedReg at h
  split at h
  · cases h
  · split at h
    · cases h
    · split at h
      · cases h
      · split at h
        · cases h
        · split at h
          · cases h
          · injection h with h
            rw [← h]

lemma theReg_id (doc : Doc) (e : DElem) (reg : Reg)
    (h : theReg doc e = some reg) : reg.id = e.id := by
  unfold theReg at h
  by_cases he : e.entryAttr.isSome
  · rw [if_pos he] at h; exact explicitReg_id e reg h
  · rw [if_neg he] at h; exact inheritedReg_id doc e reg h

lemma nodup_id_inj (doc : Doc) (hnodup : (doc.map (fun e => e.id)).Nodup)
    {x y : DElem} (hx : x ∈ doc) (hy : y ∈ doc) (h : x.id = y.id) : x = y :=
  List.inj_on_of_nodup_map hnodup hx hy h

lemma findById_self (doc : Doc) (hnodup : (doc.map (fun e => e.id)).Nodup)
    {x : DElem} (hx : x ∈ doc) : findById doc x.id = some x := by
  induction doc with
  | nil => cases hx
  | cons e rest ih =>
    simp only [List.map_cons, List.nodup_cons] at hnodup
    rcases List.mem_cons.mp hx with hx | hx
    · subst hx; simp [findById, List.find?]
    · have hne : ¬((e.id == x.id) = true) := by
        simp only [beq_iff_eq]
        intro h
        exact hnodup.1 (List.mem_map.mpr ⟨x, hx, h.symm⟩)
      simp only [findById, List.find?, hne]
      exact ih hnodup.2 hx

/-- If the registration kept and the registration being inserted are both
canonical registrations of (well-formed) document elements, then a node
identity collision means they are the same registration; this is what
makes repeated registration idempotent. -/
lemma theReg_safe (doc : Doc) (hnodup : (doc.map (fun e => e.id)).Nodup)
    {r0 reg : Reg} {e0 e : DElem} (he0 : e0 ∈ doc) (h0 : theReg doc e0 = some r0)
    (he : e ∈ doc) (h : theReg doc e = some reg) :
    r0.id ≠ reg.id ∨ r0 = reg := by
  by_cases hid : r0.id = reg.id
  · right
    have h1 : e0.id = e.id := by
      rw [← theReg_id doc e reg h, ← theReg_id doc e0 r0 h0, hid]
    have : e0 = e := nodup_id_inj doc hnodup he0 he h1
    subst this
    rw [h0] at h
    exact Option.some.inj h
  · left; exact hid

/-! ### Preservation and soundness of the scan -/

lemma keep_registerElement (doc : Doc) (hnodup : (doc.map (fun e => e.id)).Nodup)
    {r0 : Reg} (hfrom : FromDoc doc r0) {e : DElem} (he : e ∈ doc)
    (r : Registry) (h : r0 ∈ allRegs r) : r0 ∈ allRegs (registerElement r e) := by
  unfold registerElement
  cases hx : explicitReg e with
  | none => exact h
  | some reg =>
    obtain ⟨e0, he0, h0⟩ := hfrom
    have hth : theReg doc e = some reg := by
      unfold theReg
      have : e.entryAttr.isSome := by
        unfold explicitReg at hx
        cases ha : e.entryAttr with
        | none => rw [ha] at hx; cases hx
        | some s => simp [ha]
      rw [if_pos this]; exact hx
    exact mem_allRegs_regInsert_of_mem r _ reg r0 h
      (theReg_safe doc hnodup he0 h0 he hth)

lemma keep_registerInheritedElement (doc : Doc)
    (hnodup : (doc.map (fun e => e.id)).Nodup)
    {r0 : Reg} (hfrom : FromDoc doc r0) {e : DElem} (he : e ∈ doc)
    (hnoent : e.entryAttr = none)
    (r : Registry) (h : r0 ∈ allRegs r) :
    r0 ∈ allRegs (registerInheritedElement doc r e) := by
  unfold registerInheritedElement
  cases hx : inheritedReg doc e with
  | none => exact h
  | some reg =>
    obtain ⟨e0, he0, h0⟩ := hfrom
    have hth : theReg doc e = some reg := by
      unfold theReg
      rw [if_neg (by simp [hnoent])]
      exact hx
    exact mem_allRegs_regInsert_of_mem r _ reg r0 h
      (theReg_safe doc hnodup he0 h0 he hth)

lemma keep_foldl {α : Type} {l : List α} {step : Registry → α → Registry} {r0 : Reg}
    (h : ∀ r c, c ∈ l → r0 ∈ allRegs r → r0 ∈ allRegs (step r c)) :
    ∀ r, r0 ∈ allRegs r → r0 ∈ allRegs (l.foldl step r) := by
  induction l with
  | nil => intro r hr; simpa using hr
  | cons c rest ih =>
    intro r hr
    simp only [List.foldl_cons]
    exact ih (fun r c' hc' => h r c' (List.mem_cons_of_mem _ hc'))
      (step r c) (h r c (List.mem_cons_self _ _) hr)

lemma keep_scanElement (doc : Doc) (hnodup : (doc.map (fun e => e.id)).Nodup)
    {r0 : Reg} (hfrom : FromDoc doc r0) {e : DElem} (he : e ∈ doc)
    (r : Registry) (h : r0 ∈ allRegs r) : r0 ∈ allRegs (scanElement doc r e) := by
  unfold scanElement
  have h1 : r0 ∈ allRegs (if hasHygraphAttributes e then registerElement r e else r) := by
    by_cases hh : hasHygraphAttributes e
    · rw [if_pos hh]; exact keep_registerElement doc hnodup hfrom he r h
    · rw [if_neg hh]; exact h
  have h2 := @keep_foldl _
    (descendantsWith doc e (fun c => c.entryAttr.isSome)) registerElement r0
    (fun r c hc hr => keep_registerElement doc hnodup hfrom
      ((List.mem_filter.mp hc).1) r hr) _ h1
  exact @keep_foldl _
    (descendantsWith doc e (fun c => c.fieldAttr.isSome && c.entryAttr.isNone))
    (registerInheritedElement doc) r0
    (fun r c hc hr => by
      have hm := List.mem_filter.mp hc
      have hcnone : c.entryAttr = none := by
        have := hm.2
        simp only [Bool.and_eq_true] at this
        exact Option.isNone_iff_eq_none.mp this.2.2
      exact keep_registerInheritedElement doc hnodup hfrom hm.1 hcnone r hr) _ h2

lemma keep_scanExistingElements (doc : Doc)
    (hnodup : (doc.map (fun e => e.id)).Nodup)
    {r0 : Reg} (hfrom : FromDoc doc r0)
    (r : Registry) (h : r0 ∈ allRegs r) :
    r0 ∈ allRegs (scanExistingElements doc r) := by
  unfold scanExistingElements
  have h1 := @keep_foldl _
    (doc.filter (fun e => e.entryAttr.isSome)) (scanElement doc) r0
    (fun r c hc hr => keep_scanElement doc hnodup hfrom
      ((List.mem_filter.mp hc).1) r hr) _ h
  exact @keep_foldl _
    (doc.filter (fun e => e.fieldAttr.isSome && e.entryAttr.isNone))
    (registerInheritedElement doc) r0
    (fun r c hc hr => by
      have hm := List.mem_filter.mp hc
      have hcnone : c.entryAttr = none := by
        have := hm.2
        simp only [Bool.and_eq_true] at this
        exact Option.isNone_iff_eq_none.mp this.2
      exact keep_registerInheritedElement doc hnodup hfrom hm.1 hcnone r hr) _ h1

lemma mem_foldl_of_mem {α : Type} {l : List α} {step : Registry → α → Registry}
    {r0 : Reg} {x : α} (hx : x ∈ l)
    (hins : ∀ r, r0 ∈ allRegs (step r x))
    (hkeep : ∀ r c, c ∈ l → r0 ∈ allRegs r → r0 ∈ allRegs (step r c)) :
    ∀ r, r0 ∈ allRegs (l.foldl step r) := by
  induction l with
  | nil => cases hx
  | cons c rest ih =>
    intro r
    simp only [List.foldl_cons]
    rcases List.mem_cons.mp hx with hx | hx
    · subst hx
      exact keep_foldl
        (fun r c' hc' => hkeep r c' (List.mem_cons_of_mem _ hc')) _ (hins r)
    · exact ih hx (fun r c' hc' => hkeep r c' (List.mem_cons_of_mem _ hc')) _

/-! ### Soundness: everything the scan registers is a canonical
registration of some document element -/

lemma explicitReg_theReg (doc : Doc) (e : DElem) (reg : Reg)
    (h : explicitReg e = some reg) : theReg doc e = some reg := by
  unfold theReg
  have : e.entryAttr.isSome := by
    unfold explicitReg at h
    cases ha : e.entryAttr with
    | none => rw [ha] at h; cases h
    | some s => simp [ha]
  rw [if_pos this]; exact h

lemma inheritedReg_theReg (doc : Doc) (e : DElem) (reg : Reg)
    (hnoent : e.entryAttr = none) (h : inheritedReg doc e = some reg) :
    theReg doc e = some reg := by
  unfold theReg
  rw [if_neg (by simp [hnoent])]
  exact h

lemma sound_registerElement (doc : Doc) {e : DElem} (he : e ∈ doc)
    (r : Registry) (reg : Reg) (h : reg ∈ allRegs (registerElement r e)) :
    reg ∈ allRegs r ∨ FromDoc doc reg := by
  unfold registerElement at h
  cases hx : explicitReg e with
  | none => rw [hx] at h; exact Or.inl h
  | some reg' =>
    rw [hx] at h
    rcases mem_of_mem_allRegs_regInsert _ _ _ _ h with h | h
    · exact Or.inl h
    · subst h
      exact Or.inr ⟨e, he, explicitReg_theReg doc e reg hx⟩

lemma sound_registerInheritedElement (doc : Doc) {e : DElem} (he : e ∈ doc)
    (hnoent : e.entryAttr = none)
    (r : Registry) (reg : Reg) (h : reg ∈ allRegs (registerInheritedElement doc r e)) :
    reg ∈ allRegs r ∨ FromDoc doc reg := by
  unfold registerInheritedElement at h
  cases hx : inheritedReg doc e with
  | none => rw [hx] at h; exact Or.inl h
  | some reg' =>
    rw [hx] at h
    rcases mem_of_mem_allRegs_regInsert _ _ _ _ h with h | h
    · exact Or.inl h
    · subst h
      exact Or.inr ⟨e, he, inheritedReg_theReg doc e reg hnoent hx⟩

lemma sound_foldl {α : Type} (doc : Doc) {l : List α}
    {step : Registry → α → Registry}
    (h : ∀ r c, c ∈ l → ∀ reg, reg ∈ allRegs (step r c) →
      reg ∈ allRegs r ∨ FromDoc doc reg) :
    ∀ r reg, reg ∈ allRegs (l.foldl step r) → reg ∈ allRegs r ∨ FromDoc doc reg := by
  induction l with
  | nil => intro r reg hr; exact Or.inl (by simpa using hr)
  | cons c rest ih =>
    intro r reg hr
    simp only [List.foldl_cons] at hr
    rcases ih (fun r c' hc' => h r c' (List.mem_cons_of_mem _ hc')) _ reg hr with h1 | h1
    · exact h r c (List.mem_cons_self _ _) reg h1
    · exact Or.inr h1

lemma sound_scanElement (doc : Doc) {e : DElem} (he : e ∈ doc)
    (r : Registry) (reg : Reg) (h : reg ∈ allRegs (scanElement doc r e)) :
    reg ∈ allRegs r ∨ FromDoc doc reg := by
  unfold scanElement at h
  rcases sound_foldl doc
    (fun r c hc reg h => by
      have hm := List.mem_filter.mp hc
      have hcnone : c.entryAttr = none := by
        have := hm.2
        simp only [Bool.and_eq_true] at this
        exact Option.isNone_iff_eq_none.mp this.2.2
      exact sound_registerInheritedElement doc hm.1 hcnone r reg h) _ reg h with h1 | h1
  · rcases sound_foldl doc
      (fun r c hc reg h => sound_registerElement doc (List.mem_filter.mp hc).1 r reg h)
      _ reg h1 with h2 | h2
    · by_cases hh : hasHygraphAttributes e
      · rw [if_pos hh] at h2
        exact sound_registerElement doc he r reg h2
      · rw [if_neg hh] at h2
        exact Or.inl h2
    · exact Or.inr h2
  · exact Or.inr h1

lemma sound_scanExistingElements (doc : Doc)
    (r : Registry) (reg : Reg) (h : reg ∈ allRegs (scanExistingElements doc r)) :
    reg ∈ allRegs r ∨ FromDoc doc reg := by
  unfold scanExistingElements at h
  rcases sound_foldl doc
    (fun r c hc reg h => by
      have hm := List.mem_filter.mp hc
      have hcnone : c.entryAttr = none := by
        have := hm.2
        simp only [Bool.and_eq_true] at this
        exact Option.isNone_iff_eq_none.mp this.2
      exact sound_registerInheritedElement doc hm.1 hcnone r reg h) _ reg h with h1 | h1
  · exact sound_foldl doc
      (fun r c hc reg h => sound_scanElement doc (List.mem_filter.mp hc).1 r reg h)
      _ reg h1
  · exact Or.inr h1

lemma allRegs_unregister_sub (r : Registry) (e : DElem) (reg : Reg)
    (h : reg ∈ allRegs (unregisterElement r e)) : reg ∈ allRegs r := by
  induction r with
  | nil => simp [unregisterElement, allRegs] at h
  | cons kv rest ih =>
    obtain ⟨k0, l⟩ := kv
    unfold unregisterElement at h
    simp only [List.filterMap_cons] at h
    rw [allRegs_cons]
    by_cases hl : (l.filter (fun reg => !(reg.id == e.id))).isEmpty
    · simp only [hl, if_pos] at h
      exact List.mem_append_right _ (ih (by simpa [unregisterElement] using h))
    · simp only [hl, Bool.false_eq_true, if_neg, not_false_iff] at h
      rw [allRegs_cons] at h
      rcases List.mem_append.mp h with h | h
      · exact List.mem_append_left _ (List.mem_filter.mp h).1
      · exact List.mem_append_right _ (ih (by simpa [unregisterElement] using h))

lemma sound_updateElementRegistration (doc : Doc) {e : DElem} (he : e ∈ doc)
    (r : Registry) (reg : Reg)
    (h : reg ∈ allRegs (updateElementRegistration doc r e)) :
    reg ∈ allRegs r ∨ FromDoc doc reg := by
  unfold updateElementRegistration at h
  by_cases hh : hasHygraphAttributes e
  · rw [if_pos hh] at h
    rcases sound_registerElement doc he _ reg h with h1 | h1
    · exact Or.inl (allRegs_unregister_sub r e reg h1)
    · exact Or.inr h1
  · rw [if_neg hh] at h
    by_cases hf : e.fieldAttr.isSome
    · rw [if_pos hf] at h
      have hnoent : e.entryAttr = none := by
        unfold hasHygraphAttributes at hh
        exact Option.not_isSome_iff_eq_none.mp hh
      rcases sound_registerInheritedElement doc he hnoent _ reg h with h1 | h1
      · exact Or.inl (allRegs_unregister_sub r e reg h1)
      · exact Or.inr h1
    · rw [if_neg hf] at h
      exact Or.inl (allRegs_unregister_sub r e reg h)

lemma sound_handleMutationRecord (doc : Doc)
    (r : Registry) (m : Mutation) (reg : Reg)
    (h : reg ∈ allRegs (handleMutationRecord doc r m)) :
    reg ∈ allRegs r ∨ FromDoc doc reg := by
  cases m with
  | childList added =>
    unfold handleMutationRecord at h
    refine sound_foldl doc (fun r i _ reg h => ?_) _ reg h
    cases hfind : findById doc i with
    | none => rw [hfind] at h; exact Or.inl h
    | some e =>
      rw [hfind] at h
      have he : e ∈ doc := List.mem_of_find?_eq_some hfind
      by_cases hg : e.fieldAttr.isSome && e.entryAttr.isNone
      · simp only [hg, if_pos] at h
        have hnoent : e.entryAttr = none := by
          simp only [Bool.and_eq_true] at hg
          exact Option.isNone_iff_eq_none.mp hg.2
        rcases sound_registerInheritedElement doc he hnoent _ reg h with h1 | h1
        · exact sound_scanElement doc he r reg h1
        · exact Or.inr h1
      · simp only [hg, Bool.false_eq_true, if_neg, not_false_iff] at h
        exact sound_scanElement doc he r reg h
  | attrChange target attrName =>
    simp only [handleMutationRecord] at h
    by_cases hpre : attrName.data.take 13 = "data-hygraph-".data
    · rw [if_pos hpre] at h
      cases hfind : findById doc target with
      | none => rw [hfind] at h; exact Or.inl h
      | some e =>
        rw [hfind] at h
        exact sound_updateElementRegistration doc (List.mem_of_find?_eq_some hfind) r reg h
    · rw [if_neg hpre] at h
      exact Or.inl h

/-! ### The two registration claims -/

lemma closestEntryAux_mem (doc : Doc) (fuel : Nat) (p : Option Nat) (a : DElem)
    (h : closestEntryAux doc fuel p = some a) : a ∈ doc := by
  induction fuel generalizing p with
  | zero => cases h
  | succ fuel ih =>
    cases p with
    | none => cases h
    | some i =>
      simp only [closestEntryAux] at h
      split at h
      · cases h
      · rename_i b heq
        split at h
        · injection h with h
          subst h
          exact List.mem_of_find?_eq_some heq
        · exact ih _ h

lemma closestEntryElem_mem (doc : Doc) {x : DElem} (hx : x ∈ doc) {a : DElem}
    (h : closestEntryElem doc x = some a) : a ∈ doc := by
  unfold closestEntryElem at h
  by_cases he : x.entryAttr.isSome
  · rw [if_pos he] at h
    injection h with h
    subst h
    exact hx
  · rw [if_neg he] at h
    exact closestEntryAux_mem doc doc.length x.parent a h

lemma allRegs_nil : allRegs ([] : Registry) = [] := by simp [allRegs]

/-- Anything registered starting from the empty registry is a canonical
registration of a document element with the same node identity; used to
transport both uniqueness and absence results. -/
lemma scan_from_canonical (doc : Doc) {reg : Reg}
    (h : reg ∈ allRegs (scanExistingElements doc [])) :
    ∃ e ∈ doc, theReg doc e = some reg := by
  rcases sound_scanExistingElements doc [] reg h with h1 | h1
  · rw [allRegs_nil] at h1; cases h1
  · exact h1

lemma mutation_from_canonical (doc : Doc) {m : Mutation} {reg : Reg}
    (h : reg ∈ allRegs (handleMutationRecord doc [] m)) :
    ∃ e ∈ doc, theReg doc e = some reg := by
  rcases sound_handleMutationRecord doc [] m reg h with h1 | h1
  · rw [allRegs_nil] at h1; cases h1
  · exact h1

/-- C3: a node carrying a field id but no record id of its own is
registered — both by the full scan and by the change-notification path for
an added node — under the record id of its nearest ancestor that declares
one (and only under that id); when no such ancestor exists the node is not
registered at all (the source path is total: it warns in debug mode and
never throws). -/
theorem fieldRegistry_registers_inherited_under_nearest_ancestor
    (doc : Doc) (x : DElem) (f : String)
    (hwf : WfDoc doc) (hx : x ∈ doc)
    (hentry : x.entryAttr = none) (hfield : x.fieldAttr = some f) :
    (∀ anc E, closestEntryElem doc x = some anc → anc.entryAttr = some E →
      (∃ reg ∈ getElementsForEntryField (scanExistingElements doc []) E f,
        reg.id = x.id) ∧
      (∃ reg ∈ getElementsForEntryField
          (handleMutationRecord doc [] (Mutation.childList [x.id])) E f,
        reg.id = x.id) ∧
      (∀ reg ∈ allRegs (scanExistingElements doc []), reg.id = x.id →
        reg.entryId = E)) ∧
    (closestEntryElem doc x = none →
      (∀ reg ∈ allRegs (scanExistingElements doc []), reg.id ≠ x.id) ∧
      (∀ reg ∈ allRegs (handleMutationRecord doc [] (Mutation.childList [x.id])),
        reg.id ≠ x.id)) := by
  obtain ⟨hnodup, _hparents, hattrs⟩ := hwf
  have hf : f ≠ "" := by
    intro h
    subst h
    exact (hattrs x hx).2 hfield
  constructor
  · intro anc E hc ha
    have hanc : anc ∈ doc := closestEntryElem_mem doc hx hc
    have hE : E ≠ "" := by
      intro h
      subst h
      exact (hattrs anc hanc).1 ha
    have hregI : inheritedReg doc x =
        some ⟨x.id, E, some f, orUndefined x.chainAttr⟩ := by
      simp [inheritedReg, hfield, hc, ha, hf, hE]
    have hthe : theReg doc x = some ⟨x.id, E, some f, orUndefined x.chainAttr⟩ := by
      unfold theReg
      rw [if_neg (by simp [hentry])]
      exact hregI
    have hfrom : FromDoc doc ⟨x.id, E, some f, orUndefined x.chainAttr⟩ := ⟨x, hx, hthe⟩
    have hxl : x ∈ doc.filter (fun e => e.fieldAttr.isSome && e.entryAttr.isNone) :=
      List.mem_filter.mpr ⟨hx, by simp [hfield, hentry]⟩
    have hscan : (⟨x.id, E, some f, orUndefined x.chainAttr⟩ : Reg) ∈
        allRegs (scanExistingElements doc []) := by
      unfold scanExistingElements
      refine mem_foldl_of_mem hxl (fun r => ?_) (fun r c hcm hr => ?_) _
      · unfold registerInheritedElement
        rw [hregI]
        exact mem_allRegs_regInsert_self _ _ _
      · have hm := List.mem_filter.mp hcm
        have hcnone : c.entryAttr = none := by
          have := hm.2
          simp only [Bool.and_eq_true] at this
          exact Option.isNone_iff_eq_none.mp this.2
        exact keep_registerInheritedElement doc hnodup hfrom hm.1 hcnone r hr
    have hmut : handleMutationRecord doc [] (Mutation.childList [x.id]) =
        registerInheritedElement doc (scanElement doc [] x) x := by
      simp [handleMutationRecord, findById_self doc hnodup hx, hfield, hentry]
    refine ⟨⟨⟨x.id, E, some f, orUndefined x.chainAttr⟩,
        List.mem_filter.mpr ⟨hscan, by simp⟩, rfl⟩,
      ⟨⟨x.id, E, some f, orUndefined x.chainAttr⟩, ?_, rfl⟩, ?_⟩
    · rw [hmut]
      refine List.mem_filter.mpr ⟨?_, by simp⟩
      unfold registerInheritedElement
      rw [hregI]
      exact mem_allRegs_regInsert_self _ _ _
    · intro reg hreg hid
      obtain ⟨e, he, hth⟩ := scan_from_canonical doc hreg
      have : e = x := nodup_id_inj doc hnodup he hx (by rw [← theReg_id doc e reg hth, hid])
      subst this
      rw [hthe] at hth
      injection hth with hth
      rw [← hth]
  · intro hc
    have hthe : theReg doc x = none := by
      unfold theReg
      rw [if_neg (by simp [hentry])]
      simp [inheritedReg, hfield, hc]
    constructor
    · intro reg hreg hid
      obtain ⟨e, he, hth⟩ := scan_from_canonical doc hreg
      have : e = x := nodup_id_inj doc hnodup he hx (by rw [← theReg_id doc e reg hth, hid])
      subst this
      rw [hthe] at hth
      cases hth
    · intro reg hreg hid
      obtain ⟨e, he, hth⟩ := mutation_from_canonical doc hreg
      have : e = x := nodup_id_inj doc hnodup he hx (by rw [← theReg_id doc e reg hth, hid])
      subst this
      rw [hthe] at hth
      cases hth

/-- The scan registers every element carrying both attributes explicitly,
under its own entry id. -/
lemma scan_registers_explicit (doc : Doc) (x : DElem) (E f : String)
    (hnodup : (doc.map (fun e => e.id)).Nodup) (hx : x ∈ doc)
    (hentry : x.entryAttr = some E) (hE : E ≠ "")
    (hfield : x.fieldAttr = some f) (hf : f ≠ "") :
    (⟨x.id, E, some f, orUndefined x.chainAttr⟩ : Reg) ∈
      allRegs (scanExistingElements doc []) := by
  have hregE : explicitReg x = some ⟨x.id, E, some f, orUndefined x.chainAttr⟩ := by
    simp [explicitReg, hentry, hE, hfield, orUndefined, hf]
  have hthe : theReg doc x = some ⟨x.id, E, some f, orUndefined x.chainAttr⟩ :=
    explicitReg_theReg doc x _ hregE
  have hfrom : FromDoc doc ⟨x.id, E, some f, orUndefined x.chainAttr⟩ := ⟨x, hx, hthe⟩
  have hxl : x ∈ doc.filter (fun e => e.entryAttr.isSome) :=
    List.mem_filter.mpr ⟨hx, by simp [hentry]⟩
  unfold scanExistingElements
  refine keep_foldl (fun r c hcm hr => ?_) _
    (mem_foldl_of_mem hxl (fun r => ?_) (fun r c hcm hr => ?_) _)
  · have hm := List.mem_filter.mp hcm
    have hcnone : c.entryAttr = none := by
      have := hm.2
      simp only [Bool.and_eq_true] at this
      exact Option.isNone_iff_eq_none.mp this.2
    exact keep_registerInheritedElement doc hnodup hfrom hm.1 hcnone r hr
  · unfold scanElement
    refine keep_foldl (fun r1 c hcm hr => ?_) _
      (keep_foldl (fun r1 c hcm hr => ?_) _ ?_)
    · have hm := List.mem_filter.mp hcm
      have hcnone : c.entryAttr = none := by
        have := hm.2
        simp only [Bool.and_eq_true] at this
        exact Option.isNone_iff_eq_none.mp this.2.2
      exact keep_registerInheritedElement doc hnodup hfrom hm.1 hcnone r1 hr
    · exact keep_registerElement doc hnodup hfrom (List.mem_filter.mp hcm).1 r1 hr
    · rw [if_pos (by simp [hasHygraphAttributes, hentry])]
      unfold registerElement
      rw [hregE]
      exact mem_allRegs_regInsert_self _ _ _
  · exact keep_scanElement doc hnodup hfrom (List.mem_filter.mp hcm).1 r hr

/-- C8: a node declaring both its own record id and a field id is
registered under its own record id by the scan, and every registration of
that node carries the node's own record id — so an ancestor declaring a
different record id can never shadow it. -/
theorem fieldRegistry_own_entry_id_takes_precedence
    (doc : Doc) (x : DElem) (E f : String)
    (hwf : WfDoc doc) (hx : x ∈ doc)
    (hentry : x.entryAttr = some E) (hfield : x.fieldAttr = some f) :
    (∃ reg ∈ getElementsForEntryField (scanExistingElements doc []) E f,
      reg.id = x.id) ∧
    (∀ reg ∈ allRegs (scanExistingElements doc []), reg.id = x.id →
      reg.entryId = E) := by
  obtain ⟨hnodup, _hparents, hattrs⟩ := hwf
  have hE : E ≠ "" := by
    intro h
    subst h
    exact (hattrs x hx).1 hentry
  have hf : f ≠ "" := by
    intro h
    subst h
    exact (hattrs x hx).2 hfield
  have hthe : theReg doc x = some ⟨x.id, E, some f, orUndefined x.chainAttr⟩ := by
    refine explicitReg_theReg doc x _ ?_
    simp [explicitReg, hentry, hE, hfield, orUndefined, hf]
  have hscan : (⟨x.id, E, some f, orUndefined x.chainAttr⟩ : Reg) ∈
      allRegs (scanExistingElements doc []) :=
    scan_registers_explicit doc x E f hnodup hx hentry hE hfield hf
  refine ⟨⟨⟨x.id, E, some f, orUndefined x.chainAttr⟩,
    List.mem_filter.mpr ⟨hscan, by simp⟩, rfl⟩, ?_⟩
  intro reg hreg hid
  obtain ⟨e, he, hth⟩ := scan_from_canonical doc hreg
  have : e = x := nodup_id_inj doc hnodup he hx (by rw [← theReg_id doc e reg hth, hid])
  subst this
  rw [hthe] at hth
  injection hth with hth
  rw [← hth]

/-- A plain element with the given identity, parent and metadata
attributes, all content surfaces empty. -/
def mkEl (i : Nat) (par : Option Nat) (entry field : Option String) : DElem :=
  { id := i, parent := par, tag := "DIV", inputType := "",
    entryAttr := entry, fieldAttr := field, chainAttr := none, rtFormatAttr := none,
    text := "", value := "", checked := false, innerHTML := "", src := "", alt := "",
    width := 0, height := 0, href := "", styleBg := "", dataLat := none, dataLng := none }

/-- A parent declaring entry id `e1` with a child that carries only the
field id `title`. -/
def exDocA : Doc := [mkEl 0 none (some "e1") none, mkEl 1 (some 0) none (some "title")]

/-- A single field-only element with no ancestor declaring an entry id. -/
def exDocC : Doc := [mkEl 5 none none (some "body")]

/-- Witness for C3: in `exDocA` the child is registered under the parent's
entry id by both the scan and the added-node path, and only under it; in
`exDocC` an orphan field-only element is registered by neither path. -/
theorem fieldRegistry_registers_inherited_under_nearest_ancestor_witness :
    ((∃ reg ∈ getElementsForEntryField (scanExistingElements exDocA []) "e1" "title",
        reg.id = 1) ∧
      (∃ reg ∈ getElementsForEntryField
          (handleMutationRecord exDocA [] (Mutation.childList [1])) "e1" "title",
        reg.id = 1) ∧
      (∀ reg ∈ allRegs (scanExistingElements exDocA []), reg.id = 1 →
        reg.entryId = "e1")) ∧
    ((∀ reg ∈ allRegs (scanExistingElements exDocC []), reg.id ≠ 5) ∧
      (∀ reg ∈ allRegs (handleMutationRecord exDocC [] (Mutation.childList [5])),
        reg.id ≠ 5)) :=
  ⟨(fieldRegistry_registers_inherited_under_nearest_ancestor exDocA
      (mkEl 1 (some 0) none (some "title")) "title"
      ⟨by decide, by decide, by decide⟩ (by decide) rfl rfl).1
      (mkEl 0 none (some "e1") none) "e1" (by decide) rfl,
   (fieldRegistry_registers_inherited_under_nearest_ancestor exDocC
      (mkEl 5 none none (some "body")) "body"
      ⟨by decide, by decide, by decide⟩ (by decide) rfl rfl).2 (by decide)⟩

/-- A parent declaring entry id `outer` with a child declaring its own
entry id `own` together with the field id `title`. -/
def exDocB : Doc :=
  [mkEl 0 none (some "outer") none, mkEl 1 (some 0) (some "own") (some "title")]

/-- Witness for C8: under a differently-id'd ancestor, the child is
registered under its own entry id and under nothing else. -/
theorem fieldRegistry_own_entry_id_takes_precedence_witness :
    (∃ reg ∈ getElementsForEntryField (scanExistingElements exDocB []) "own" "title",
      reg.id = 1) ∧
    (∀ reg ∈ allRegs (scanExistingElements exDocB []), reg.id = 1 →
      reg.entryId = "own") :=
  fieldRegistry_own_entry_id_takes_precedence exDocB
    (mkEl 1 (some 0) (some "own") (some "title")) "own" "title"
    ⟨by decide, by decide, by decide⟩ (by decide) rfl rfl

/-! ## ContentUpdater

The ContentUpdater's host environment: `localeDate` stands for
`new Date(s).toLocaleDateString()` (locale- and host-dependent), and
`hasMorphdom` for the presence of `window.morphdom`.  When morphdom is
present the source copies the new markup into a detached element and merges
it into the live one; the observable result on the element's `innerHTML`
is the same as direct assignment, which is how both branches are
modelled. -/
structure JsEnv where
  localeDate : String → String
  hasMorphdom : Bool

/-- A trivial environment for concrete witnesses. -/
def idEnv : JsEnv := { localeDate := fun s => s, hasMorphdom := false }

/-- Structural size of a dynamic value, used to bound the fuel of the
recursive renderers (each recursion step descends into a strict subvalue,
and the depth of a value never exceeds its size). -/
def jsSize : JsVal → Nat
  | .vstr _ => 1
  | .vnum _ => 1
  | .vbool _ => 1
  | .vnull => 1
  | .vundef => 1
  | .varr xs => 1 + (xs.attach.map (fun x => jsSize x.1)).sum
  | .vobj fs => 1 + (fs.attach.map (fun kv => jsSize kv.1.2)).sum
  termination_by v => sizeOf v
  decreasing_by
  · have := List.sizeOf_lt_of_mem x.2
    simp only [JsVal.varr.sizeOf_spec]
    omega
  · have h1 := List.sizeOf_lt_of_mem kv.2
    have h2 : sizeOf kv.1.2 < sizeOf kv.1 := by
      obtain ⟨a, b⟩ := kv.1
      simp only [Prod.mk.sizeOf_spec]
      omega
    simp only [JsVal.vobj.sizeOf_spec]
    omega

/-- The browser's HTML escaping of text content (as performed by the
source's `escapeHtml` through a detached div). -/
def escapeHtml (s : String) : String :=
  s.data.foldl (fun acc c =>
    if c == '&' then acc ++ "&amp;"
    else if c == '<' then acc ++ "&lt;"
    else if c == '>' then acc ++ "&gt;"
    else acc.push c) ""

/-- ContentUpdater.renderRichTextNode: a text node is escaped; otherwise
the children are rendered (only when `children` is an array) and wrapped
according to the node-type-to-tag mapping; unknown types pass the children
through.  The fuel only serves structural recursion and is sized so it
never runs out. -/
def renderRichTextNodeAux : Nat → JsVal → String
  | 0, _ => ""
  | fuel + 1, node =>
    match getField node "text" with
    | .vstr t => escapeHtml t
    | _ =>
      let children :=
        match getField node "children" with
        | .varr xs => String.join (xs.map (renderRichTextNodeAux fuel))
        | _ => ""
      match getField node "type" with
      | .vstr "paragraph" => "<p>" ++ children ++ "</p>"
      | .vstr "heading-one" => "<h1>" ++ children ++ "</h1>"
      | .vstr "heading-two" => "<h2>" ++ children ++ "</h2>"
      | .vstr "heading-three" => "<h3>" ++ children ++ "</h3>"
      | .vstr "heading-four" => "<h4>" ++ children ++ "</h4>"
      | .vstr "heading-five" => "<h5>" ++ children ++ "</h5>"
      | .vstr "heading-six" => "<h6>" ++ children ++ "</h6>"
      | .vstr "block-quote" => "<blockquote>" ++ children ++ "</blockquote>"
      | .vstr "bulleted-list" => "<ul>" ++ children ++ "</ul>"
      | .vstr "numbered-list" => "<ol>" ++ children ++ "</ol>"
      | .vstr "list-item" => "<li>" ++ children ++ "</li>"
      | .vstr "link" =>
        let href := match getField node "href" with
          | .vstr h => h
          | _ => ""
        "<a href=\"" ++ href ++ "\">" ++ children ++ "</a>"
      | .vstr "bold" => "<strong>" ++ children ++ "</strong>"
      | .vstr "italic" => "<em>" ++ children ++ "</em>"
      | .vstr "underline" => "<u>" ++ children ++ "</u>"
      | .vstr "code" => "<code>" ++ children ++ "</code>"
      | _ => children

/-- ContentUpdater.richTextToHTML: render the AST's children, the empty
string when `children` is falsy. -/
def richTextToHTML (v : JsVal) : String :=
  let children := getField v "children"
  if !(jsTruthy children) then ""
  else
    match children with
    | .varr xs => String.join (xs.map (renderRichTextNodeAux (jsSize v)))
    | _ => ""

/-- JSON string quoting as used by `JSON.stringify`. -/
def jsonQuote (s : String) : String :=
  "\"" ++
    s.data.foldl (fun acc c =>
      if c == '"' then acc ++ "\\" ++ "\""
      else if c == '\\' then acc ++ "\\" ++ "\\"
      else if c == '\n' then acc ++ "\\n"
      else if c == '\t' then acc ++ "\\t"
      else acc.push c) "" ++ "\""

/-- Compact `JSON.stringify` (returns `none` exactly when JS would return
`undefined`). -/
def jsonStringifyAux : Nat → JsVal → Option String
  | 0, _ => none
  | fuel + 1, v =>
    match v with
    | .vstr s => some (jsonQuote s)
    | .vnum n => some (toString n)
    | .vbool b => some (if b then "true" else "false")
    | .vnull => some "null"
    | .vundef => none
    | .varr xs =>
      some ("[" ++ String.intercalate ","
        (xs.map (fun x => (jsonStringifyAux fuel x).getD "null")) ++ "]")
    | .vobj fs =>
      some ("\x7b" ++ String.intercalate ","
        (fs.filterMap (fun kv =>
          (jsonStringifyAux fuel kv.2).map (fun s => jsonQuote kv.1 ++ ":" ++ s)))
        ++ "\x7d")

/-- Compact `JSON.stringify` at adequate fuel. -/
def jsonStringify (v : JsVal) : Option String :=
  jsonStringifyAux (jsSize v) v

/-- A run of spaces for JSON indentation. -/
def spacesN (n : Nat) : String :=
  String.mk (List.replicate n ' ')

/-- Pretty `JSON.stringify(v, null, 2)`; `ind` is the indentation depth of
the closing bracket. -/
def jsonPrettyAux : Nat → Nat → JsVal → Option String
  | 0, _, _ => none
  | fuel + 1, ind, v =>
    match v with
    | .varr [] => some "[]"
    | .varr xs =>
      some ("[\n" ++ String.intercalate ",\n"
          (xs.map (fun x => spacesN (ind + 2) ++ (jsonPrettyAux fuel (ind + 2) x).getD "null"))
        ++ "\n" ++ spacesN ind ++ "]")
    | .vobj fs =>
      let items := fs.filterMap (fun kv =>
        (jsonPrettyAux fuel (ind + 2) kv.2).map (fun s =>
          spacesN (ind + 2) ++ jsonQuote kv.1 ++ ": " ++ s))
      if items.isEmpty then some "\x7b\x7d"
      else some ("\x7b\n" ++ String.intercalate ",\n" items ++ "\n" ++ spacesN ind ++ "\x7d")
    | _ => jsonStringifyAux (fuel + 1) v

/-- Pretty `JSON.stringify(v, null, 2)` at adequate fuel. -/
def jsonPretty (v : JsVal) : Option String :=
  jsonPrettyAux (jsSize v) 0 v

/-- The `Object.entries` of a dynamic value. -/
def entriesOf : JsVal → List (String × JsVal)
  | .vobj fs => fs
  | _ => []

/-- ContentUpdater.formatComponentValue. -/
def formatComponentValue (v : JsVal) : String :=
  match v with
  | .vnull => ""
  | .vundef => ""
  | .vstr s => s
  | .vnum n => toString n
  | .vbool b => if b then "true" else "false"
  | _ => (jsonStringify v).getD "undefined"

/-- ContentUpdater.renderComponent: a wrapper tagged with the component's
type name containing one escaped child per non-identity field. -/
def renderComponent (componentData : JsVal) : String :=
  let typename := jsString (getField componentData "__typename")
  let fields := (entriesOf componentData).filter
    (fun kv => !(kv.1 == "__typename") && !(kv.1 == "id"))
  let fieldDivs := String.join (fields.map (fun kv =>
    "<div data-field=\"" ++ kv.1 ++ "\">" ++
      escapeHtml (formatComponentValue kv.2) ++ "</div>"))
  "<div data-component=\"" ++ typename ++ "\">" ++ fieldDivs ++ "</div>"

/-! ### Per-field-type apply routines -/

/-- ContentUpdater.updateTextField.  The source guard
`!newValue && newValue !== ''` is identically false on strings and is kept
verbatim. -/
def updateTextField (e : DElem) (newValue : String) : DElem :=
  if newValue == "" && !(newValue == "") then e
  else if e.tag == "INPUT" || e.tag == "TEXTAREA" then { e with value := newValue }
  else { e with text := newValue }

/-- ContentUpdater.shouldUseInnerHTML: markup delimiters present. -/
def shouldUseInnerHTML (_e : DElem) (content : String) : Bool :=
  content.data.contains '<' && content.data.contains '>'

/-- ContentUpdater.updateRichTextField: legacy bare strings pick
innerHTML/text by the markup heuristic; a multi-format bundle is resolved
through the element's declared format preference (html preferred as
fallback); a legacy AST (`children` key) is rendered to HTML.  Values of
any other shape leave the element unchanged. -/
def updateRichTextField (e : DElem) (richTextData : JsVal) : DElem :=
  match richTextData with
  | .vstr content =>
    if shouldUseInnerHTML e content then { e with innerHTML := content }
    else { e with text := content }
  | .vobj fs =>
    if hasKey fs "html" && hasKey fs "markdown" then
      let formatPreference := e.rtFormatAttr
      if formatPreference == some "html" && jsTruthy (getField (.vobj fs) "html") then
        { e with innerHTML := jsString (getField (.vobj fs) "html") }
      else if formatPreference == some "markdown" &&
          jsTruthy (getField (.vobj fs) "markdown") then
        { e with text := jsString (getField (.vobj fs) "markdown") }
      else if formatPreference == some "text" && jsTruthy (getField (.vobj fs) "text") then
        { e with text := jsString (getField (.vobj fs) "text") }
      else
        let content :=
          if jsTruthy (getField (.vobj fs) "html") then jsString (getField (.vobj fs) "html")
          else richTextToHTML
            (if jsTruthy (getField (.vobj fs) "ast") then getField (.vobj fs) "ast"
             else .vobj fs)
        { e with innerHTML := content }
    else if hasKey fs "children" then
      { e with innerHTML := richTextToHTML (.vobj fs) }
    else e
  | _ => e

/-- ContentUpdater.updateNumberField. -/
def updateNumberField (e : DElem) (newValue : JsVal) : DElem :=
  match newValue with
  | .vnull => e
  | .vundef => e
  | v =>
    let stringValue := jsString v
    if e.tag == "INPUT" then { e with value := stringValue }
    else { e with text := stringValue }

/-- ContentUpdater.updateBooleanField (`checked` assignment coerces by
truthiness). -/
def updateBooleanField (e : DElem) (newValue : JsVal) : DElem :=
  if e.tag == "INPUT" && e.inputType == "checkbox" then
    { e with checked := jsTruthy newValue }
  else { e with text := jsString newValue }

/-- ContentUpdater.updateDateField: date inputs receive the date part of
the raw value, other elements the locale-formatted date. -/
def updateDateField (env : JsEnv) (e : DElem) (newValue : JsVal) : DElem :=
  if !(jsTruthy newValue) then e
  else
    let s := jsString newValue
    if e.tag == "INPUT" && e.inputType == "date" then
      { e with value := (s.splitOn "T").headD "" }
    else { e with text := env.localeDate s }

/-- ContentUpdater.updateSingleAsset: map the asset onto the element's
natural media surface per tag. -/
def updateSingleAsset (e : DElem) (asset : JsVal) : DElem :=
  if e.tag == "IMG" then
    let e := { e with src := jsString (getField asset "url") }
    let e := if jsTruthy (getField asset "alt") then
        { e with alt := jsString (getField asset "alt") } else e
    let e := if jsTruthy (getField asset "width") then
        { e with width := (match getField asset "width" with
                           | .vnum n => n
                           | _ => e.width) } else e
    if jsTruthy (getField asset "height") then
      { e with height := (match getField asset "height" with
                          | .vnum n => n
                          | _ => e.height) }
    else e
  else if e.tag == "VIDEO" then { e with src := jsString (getField asset "url") }
  else if e.tag == "AUDIO" then { e with src := jsString (getField asset "url") }
  else if e.tag == "A" then
    let e := { e with href := jsString (getField asset "url") }
    if e.text == "" then { e with text := jsString (getField asset "fileName") }
    else e
  else
    { e with innerHTML := "<img src=\"" ++ jsString (getField asset "url")
        ++ "\" alt=\"" ++
        (if jsTruthy (getField asset "alt") then jsString (getField asset "alt") else "")
        ++ "\" />" }

/-- ContentUpdater.updateAssetField: falsy values are ignored; arrays use
their first element. -/
def updateAssetField (e : DElem) (asset : JsVal) : DElem :=
  if !(jsTruthy asset) then e
  else
    match asset with
    | .varr [] => e
    | .varr (a :: _) => updateSingleAsset e a
    | a => updateSingleAsset e a

/-- ContentUpdater.updateLocationField: requires numeric coordinates;
renders "lat, lon" and stamps the raw coordinates as data attributes. -/
def updateLocationField (e : DElem) (location : JsVal) : DElem :=
  match getField location "latitude", getField location "longitude" with
  | .vnum lat, .vnum lng =>
    { e with text := toString lat ++ ", " ++ toString lng,
             dataLat := some (toString lat), dataLng := some (toString lng) }
  | _, _ => e

/-- ContentUpdater.updateColorField (every HTMLElement has `style`, so the
background is always set alongside the text). -/
def updateColorField (e : DElem) (color : JsVal) : DElem :=
  if !(jsTruthy color) then e
  else { e with text := jsString color, styleBg := jsString color }

/-- ContentUpdater.updateComponentField. -/
def updateComponentField (e : DElem) (componentData : JsVal) : DElem :=
  if !(jsTruthy componentData) then e
  else { e with innerHTML := renderComponent componentData }

/-- ContentUpdater.updateJsonField. -/
def updateJsonField (e : DElem) (jsonData : JsVal) : DElem :=
  match jsonData with
  | .vnull => e
  | .vundef => e
  | v => { e with text := (jsonPretty v).getD "undefined" }

/-- ContentUpdater.updateRelationField. -/
def updateRelationField (e : DElem) (relation : JsVal) : DElem :=
  match relation with
  | .vnull => { e with text := "" }
  | .varr xs =>
    { e with text := (String.intercalate ", "
        (xs.map (fun x =>
          match x with
          | .vnull => ""
          | .vundef => ""
          | v => jsString v))) }
  | v => { e with text := jsString v }

/-! ### Dispatch, element lookup and the debounced pipeline -/

/-- One inbound field update (the `locale`/`updateId` metadata play no role
in the updater and are omitted). -/
structure FieldUpd where
  entryId : String
  fieldApiId : String
  fieldType : String
  newValue : JsVal

/-- The coalescing key `entryId:fieldApiId` used by `updateField`. -/
def updKey (u : FieldUpd) : String :=
  u.entryId ++ ":" ++ u.fieldApiId

/-- ContentUpdater.findElements: a direct DOM query for elements carrying
`data-hygraph-entry-id="entryId"`, and additionally
`data-hygraph-field-api-id="fieldApiId"` when the field id is truthy.  The
registry is not consulted. -/
def findElements (doc : Doc) (entryId fieldApiId : String) : List DElem :=
  doc.filter (fun x => x.entryAttr == some entryId &&
    (fieldApiId == "" || x.fieldAttr == some fieldApiId))

/-- ContentUpdater.updateElement: dispatch on the field-type tag; an
unknown tag throws `Unsupported field type`, surfaced here as `Except`. -/
def updateElement (env : JsEnv) (e : DElem) (u : FieldUpd) : Except String DElem :=
  match u.fieldType with
  | "STRING" => .ok (updateTextField e (jsString u.newValue))
  | "ID" => .ok (updateTextField e (jsString u.newValue))
  | "RICHTEXT" => .ok (updateRichTextField e u.newValue)
  | "INT" => .ok (updateNumberField e u.newValue)
  | "FLOAT" => .ok (updateNumberField e u.newValue)
  | "BOOLEAN" => .ok (updateBooleanField e u.newValue)
  | "DATETIME" => .ok (updateDateField env e u.newValue)
  | "DATE" => .ok (updateDateField env e u.newValue)
  | "ASSET" => .ok (updateAssetField e u.newValue)
  | "LOCATION" => .ok (updateLocationField e u.newValue)
  | "COLOR" => .ok (updateColorField e u.newValue)
  | "COMPONENT" => .ok (updateComponentField e u.newValue)
  | "JSON" => .ok (updateJsonField e u.newValue)
  | "ENUMERATION" => .ok (updateTextField e (jsString u.newValue))
  | "RELATION" => .ok (updateRelationField e u.newValue)
  | _ => .error "Unsupported field type"

/-- The result shape of `updateField` ({success, error?, element?}, the
element recorded by node identity). -/
structure UpdResult where
  success : Bool
  error : Option String
  element : Option Nat
deriving DecidableEq

/-- Replace an element (by node identity) in the document. -/
def docSet (doc : Doc) (i : Nat) (v : DElem) : Doc :=
  doc.map (fun x => if x.id == i then v else x)

/-- Accumulator of the per-element update loop. -/
structure LoopAcc where
  doc : Doc
  hasError : Bool
  lastError : String
deriving DecidableEq

/-- The `for (const element of elements)` loop of `updateField`: each
element is updated under its own try/catch; failures record the last error
and do not stop the loop or roll anything back. -/
def applyLoop (env : JsEnv) (u : FieldUpd) (elems : List DElem) (acc : LoopAcc) : LoopAcc :=
  elems.foldl (fun acc e =>
    match updateElement env e u with
    | .ok e' => { acc with doc := docSet acc.doc e.id e' }
    | .error msg => { acc with hasError := true, lastError := msg }) acc

/-- The phase of `updateField` that runs when the debounced update is still
the latest: find the target elements, apply to each, and build the overall
result. -/
def applyUpdatePhase (env : JsEnv) (doc : Doc) (u : FieldUpd) : Doc × UpdResult :=
  match findElements doc u.entryId u.fieldApiId with
  | [] => (doc, { success := false, error := some "No matching elements found",
                  element := none })
  | e0 :: rest =>
    let acc := applyLoop env u (e0 :: rest) { doc := doc, hasError := false, lastError := "" }
    if acc.hasError then
      (acc.doc, { success := false, error := some acc.lastError, element := none })
    else (acc.doc, { success := true, error := none, element := some e0.id })

/-- Mutable state of a ContentUpdater instance: the coalescing queue maps
each key to the identity (call index) of the most recently enqueued update
for it.  The source compares queue entries by object identity
(`latestUpdate !== update`); since every `updateField` call carries a fresh
message object, identity is modelled by a per-call index. -/
structure UpdaterState where
  updateQueue : List (String × Nat)
  isDestroyed : Bool
deriving DecidableEq

/-- `Map.set` on the queue. -/
def qset : List (String × Nat) → String → Nat → List (String × Nat)
  | [], k, c => [(k, c)]
  | (k0, c0) :: rest, k, c =>
    if k0 == k then (k0, c) :: rest else (k0, c0) :: qset rest k c

/-- `Map.get` on the queue. -/
def qget (q : List (String × Nat)) (k : String) : Option Nat :=
  (q.find? (fun kv => kv.1 == k)).map (fun kv => kv.2)

/-- `Map.delete` on the queue. -/
def qdel : List (String × Nat) → String → List (String × Nat)
  | [], _ => []
  | (k0, c0) :: rest, k =>
    if k0 == k then rest else (k0, c0) :: qdel rest k

/-- ContentUpdater.destroy: mark destroyed and clear the queue (pending
timers are not cancelled). -/
def destroyUpdater (_st : UpdaterState) : UpdaterState :=
  { updateQueue := [], isDestroyed := true }

/-- The macrotask-level events of the updater: each `updateField(u)` call
splits into its synchronous prefix (`call` — the destroyed check and the
enqueue) and the continuation after the debounce delay (`fire` — the
supersession check and, if still latest, the apply phase).  `destroy` may
be interleaved anywhere. -/
inductive UEvent where
  | call (c : Nat) (u : FieldUpd)
  | fire (c : Nat) (u : FieldUpd)
  | destroy

/-- The updater state together with the live document, the results
resolved so far (per call index), and the log of calls that reached the
apply phase. -/
structure UpdaterWorld where
  upd : UpdaterState
  doc : Doc
  results : List (Nat × UpdResult)
  applied : List Nat
deriving DecidableEq

/-- One event step of updateField's semantics. -/
def stepUpd (env : JsEnv) (w : UpdaterWorld) : UEvent → UpdaterWorld
  | .call c u =>
    if w.upd.isDestroyed then
      { w with results := w.results ++
          [(c, { success := false, error := some "ContentUpdater is destroyed",
                 element := none })] }
    else
      { w with upd := { w.upd with updateQueue := qset w.upd.updateQueue (updKey u) c } }
  | .fire c u =>
    if qget w.upd.updateQueue (updKey u) == some c then
      let res := applyUpdatePhase env w.doc u
      { upd := { w.upd with updateQueue := qdel w.upd.updateQueue (updKey u) },
        doc := res.1,
        results := w.results ++ [(c, res.2)],
        applied := w.applied ++ [c] }
    else
      { w with results := w.results ++
          [(c, { success := true, error := none, element := none })] }
  | .destroy => { w with upd := destroyUpdater w.upd }

/-- Run a sequence of events. -/
def runUpd (env : JsEnv) (w : UpdaterWorld) (evs : List UEvent) : UpdaterWorld :=
  evs.foldl (stepUpd env) w

/-- A fresh updater over a document. -/
def initWorld (doc : Doc) : UpdaterWorld :=
  { upd := { updateQueue := [], isDestroyed := false },
    doc := doc, results := [], applied := [] }

/-- The `call` events of consecutive `updateField` invocations, indexed
from `i`. -/
def callEvents : Nat → List FieldUpd → List UEvent
  | _, [] => []
  | i, u :: us => UEvent.call i u :: callEvents (i + 1) us

/-- The matching `fire` events, in timer order. -/
def fireEvents : Nat → List FieldUpd → List UEvent
  | _, [] => []
  | i, u :: us => UEvent.fire i u :: fireEvents (i + 1) us

/-- N calls all arriving within one debounce window: every enqueue happens
before the first timer fires, and the timers fire in call order (equal
delays). -/
def debounceTrace (us : List FieldUpd) : List UEvent :=
  callEvents 0 us ++ fireEvents 0 us

/-- The result a superseded (or destroyed-while-pending) call resolves
with: a bare success that touched nothing. -/
def supersededRes : UpdResult :=
  { success := true, error := none, element := none }

/-- The results of `n` consecutive superseded calls starting at index `i`. -/
def supersededList : Nat → Nat → List (Nat × UpdResult)
  | _, 0 => []
  | i, n + 1 => (i, supersededRes) :: supersededList (i + 1) n

/-! ### Debounce-trace lemmas -/

lemma runUpd_cons (env : JsEnv) (w : UpdaterWorld) (e : UEvent) (evs : List UEvent) :
    runUpd env w (e :: evs) = runUpd env (stepUpd env w e) evs := rfl

lemma runUpd_singleton (env : JsEnv) (w : UpdaterWorld) (e : UEvent) :
    runUpd env w [e] = stepUpd env w e := rfl

lemma runUpd_append (env : JsEnv) (w : UpdaterWorld) (l1 l2 : List UEvent) :
    runUpd env w (l1 ++ l2) = runUpd env (runUpd env w l1) l2 := by
  simp [runUpd, List.foldl_append]

lemma qset_qset (q : List (String × Nat)) (k : String) (a b : Nat) :
    qset (qset q k a) k b = qset q k b := by
  induction q with
  | nil => simp [qset]
  | cons kv rest ih =>
    obtain ⟨k0, c0⟩ := kv
    by_cases h : k0 == k <;> simp [qset, h, ih]

lemma stepUpd_call_live (env : JsEnv) (w : UpdaterWorld) (c : Nat) (u : FieldUpd)
    (hd : w.upd.isDestroyed = false) :
    stepUpd env w (UEvent.call c u) =
      { w with upd := { w.upd with updateQueue := qset w.upd.updateQueue (updKey u) c } } := by
  simp [stepUpd, hd]

lemma runUpd_callEvents (env : JsEnv) (us : List FieldUpd) (k : String) :
    ∀ (i0 : Nat) (w : UpdaterWorld), w.upd.isDestroyed = false →
    (∀ u ∈ us, updKey u = k) → us ≠ [] →
    runUpd env w (callEvents i0 us) =
      { w with upd := { w.upd with
          updateQueue := qset w.upd.updateQueue k (i0 + us.length - 1) } } := by
  induction us with
  | nil => intro _ _ _ _ hne; cases hne rfl
  | cons u us ih =>
    intro i0 w hd hk _
    have hku : updKey u = k := hk u (List.mem_cons_self _ _)
    cases us with
    | nil =>
      simp [callEvents, runUpd_cons, stepUpd_call_live env w i0 u hd, runUpd, hku]
    | cons u2 us2 =>
      rw [callEvents, runUpd_cons, stepUpd_call_live env w i0 u hd]
      rw [ih (i0 + 1) _ (by simp [hd])
        (fun u hu => hk u (List.mem_cons_of_mem _ hu)) (by simp)]
      simp only [hku, qset_qset]
      have harith : i0 + 1 + (u2 :: us2).length - 1 = i0 + (u :: u2 :: us2).length - 1 := by
        simp only [List.length_cons]
        omega
      rw [harith]

lemma stepUpd_fire_superseded (env : JsEnv) (w : UpdaterWorld) (c : Nat) (u : FieldUpd)
    (hq : ¬(qget w.upd.updateQueue (updKey u) == some c) = true) :
    stepUpd env w (UEvent.fire c u) =
      { w with results := w.results ++ [(c, supersededRes)] } := by
  simp [stepUpd, hq, supersededRes]

lemma stepUpd_fire_latest (env : JsEnv) (w : UpdaterWorld) (c : Nat) (u : FieldUpd)
    (hq : qget w.upd.updateQueue (updKey u) = some c) :
    stepUpd env w (UEvent.fire c u) =
      { upd := { w.upd with updateQueue := qdel w.upd.updateQueue (updKey u) },
        doc := (applyUpdatePhase env w.doc u).1,
        results := w.results ++ [(c, (applyUpdatePhase env w.doc u).2)],
        applied := w.applied ++ [c] } := by
  simp [stepUpd, hq]

lemma runUpd_fireEvents_superseded (env : JsEnv) (us : List FieldUpd) (k : String)
    (m : Nat) :
    ∀ (i0 : Nat) (w : UpdaterWorld),
    (∀ u ∈ us, updKey u = k) →
    qget w.upd.updateQueue k = some m →
    (∀ j, i0 ≤ j → j < i0 + us.length → j ≠ m) →
    runUpd env w (fireEvents i0 us) =
      { w with results := w.results ++ supersededList i0 us.length } := by
  induction us with
  | nil => intro i0 w _ _ _; simp [fireEvents, runUpd, supersededList]
  | cons u us ih =>
    intro i0 w hk hq hj
    have hku : updKey u = k := hk u (List.mem_cons_self _ _)
    have hne : i0 ≠ m := hj i0 le_rfl (by simp)
    rw [fireEvents, runUpd_cons, stepUpd_fire_superseded env w i0 u
      (by simp [hku, hq]; omega)]
    rw [ih (i0 + 1) _ (fun u hu => hk u (List.mem_cons_of_mem _ hu)) (by simpa using hq)
      (fun j h1 h2 => hj j (by omega) (by simp at h2 ⊢; omega))]
    simp [supersededList]

lemma fireEvents_append (us vs : List FieldUpd) :
    ∀ i0, fireEvents i0 (us ++ vs) = fireEvents i0 us ++ fireEvents (i0 + us.length) vs := by
  induction us with
  | nil => intro i0; simp [fireEvents]
  | cons u us ih =>
    intro i0
    simp only [List.cons_append, fireEvents, List.append_eq, ih (i0 + 1), List.length_cons]
    rw [show i0 + 1 + us.length = i0 + (us.length + 1) from by omega]

/-- C1: for a burst of two or more `updateField` calls for the same
`(entryId, fieldApiId)` key within one debounce window, exactly the last
enqueued update reaches the apply phase (the `applied` log is the singleton
last index), the document is transformed exactly by that last update, every
earlier call resolves with a bare success having applied nothing, and the
last call resolves with the apply phase's result. -/
theorem contentUpdater_debounce_last_wins
    (env : JsEnv) (doc : Doc) (us : List FieldUpd) (uLast : FieldUpd)
    (entryId fieldApiId : String)
    (hlen : 2 ≤ us.length)
    (hkey : ∀ u ∈ us, u.entryId = entryId ∧ u.fieldApiId = fieldApiId)
    (hlast : us.getLast? = some uLast) :
    runUpd env (initWorld doc) (debounceTrace us) =
      { upd := { updateQueue := [], isDestroyed := false },
        doc := (applyUpdatePhase env doc uLast).1,
        results := supersededList 0 (us.length - 1) ++
          [(us.length - 1, (applyUpdatePhase env doc uLast).2)],
        applied := [us.length - 1] } := by
  have hne : us ≠ [] := by
    intro h; subst h; simp at hlen
  have hkey' : ∀ u ∈ us, updKey u = entryId ++ ":" ++ fieldApiId := by
    intro u hu
    have := hkey u hu
    simp [updKey, this.1, this.2]
  set k := entryId ++ ":" ++ fieldApiId with hk
  have hgl : uLast = us.getLast hne := by
    rw [List.getLast?_eq_getLast us hne] at hlast
    exact (Option.some.inj hlast).symm
  have hsplit : us.dropLast ++ [uLast] = us := by
    rw [hgl]
    exact List.dropLast_append_getLast hne
  have hlenDL : us.dropLast.length = us.length - 1 := List.length_dropLast us
  have hkLast : updKey uLast = k := by
    rw [hgl]
    exact hkey' _ (List.getLast_mem hne)
  -- phase 1: all enqueues; the queue ends at the last call's index
  rw [debounceTrace, runUpd_append,
    runUpd_callEvents env us k 0 (initWorld doc) rfl hkey' hne]
  have hq0 : qset (initWorld doc).upd.updateQueue k (0 + us.length - 1) =
      [(k, us.length - 1)] := by
    simp [initWorld, qset]
  rw [hq0]
  -- phase 2: all earlier timers find themselves superseded
  have hfe : fireEvents 0 us =
      fireEvents 0 us.dropLast ++ fireEvents (0 + us.dropLast.length) [uLast] := by
    conv_lhs => rw [← hsplit]
    exact fireEvents_append _ _ 0
  rw [hfe, runUpd_append]
  rw [runUpd_fireEvents_superseded env us.dropLast k (us.length - 1) 0 _
    (fun u hu => hkey' u ((List.dropLast_sublist us).subset hu))
    (by simp [initWorld, qget])
    (fun j h1 h2 => by
      rw [hlenDL] at h2
      omega)]
  -- the last timer still finds itself in the queue and applies
  have hfin : fireEvents (0 + us.dropLast.length) [uLast] =
      [UEvent.fire (us.length - 1) uLast] := by
    simp [fireEvents, hlenDL]
  rw [hfin, runUpd_singleton]
  rw [stepUpd_fire_latest env _ (us.length - 1) uLast (by simp [initWorld, hkLast, qget])]
  simp [initWorld, hkLast, qdel, hlenDL, supersededList]

/-- A one-element document carrying `(r3, price)`. -/
def exDocU : Doc := [mkEl 0 none (some "r3") (some "price")]

/-- First rapid update: value 9. -/
def exUpd1 : FieldUpd :=
  { entryId := "r3", fieldApiId := "price", fieldType := "STRING", newValue := .vstr "9" }

/-- Second rapid update: value 12. -/
def exUpd2 : FieldUpd :=
  { entryId := "r3", fieldApiId := "price", fieldType := "STRING", newValue := .vstr "12" }

/-- Witness for C1: two updates 9-then-12 to `(r3, price)` inside one
debounce window leave the rendered text at 12, with exactly one apply and
the first call resolved as a plain success. -/
theorem contentUpdater_debounce_last_wins_witness :
    (runUpd idEnv (initWorld exDocU) (debounceTrace [exUpd1, exUpd2]) =
      { upd := { updateQueue := [], isDestroyed := false },
        doc := (applyUpdatePhase idEnv exDocU exUpd2).1,
        results := supersededList 0 1 ++
          [(1, (applyUpdatePhase idEnv exDocU exUpd2).2)],
        applied := [1] }) ∧
    ((runUpd idEnv (initWorld exDocU) (debounceTrace [exUpd1, exUpd2])).doc.map
      (fun e => e.text)) = ["12"] :=
  ⟨contentUpdater_debounce_last_wins idEnv exDocU [exUpd1, exUpd2] exUpd2 "r3" "price"
    (by decide) (by decide) rfl, by decide⟩

/-! ### Per-node failure isolation (C6) -/

/-- The element an update loop iteration leaves behind: the updated element
on success, the untouched element on a caught per-node failure. -/
def outcomeElem (env : JsEnv) (u : FieldUpd) (e : DElem) : DElem :=
  match updateElement env e u with
  | .ok e' => e'
  | .error _ => e

/-- The error message of a failed per-node update. -/
def errOf : Except String DElem → Option String
  | .error msg => some msg
  | .ok _ => none

/-- The error messages raised across a list of elements, in loop order. -/
def errList (env : JsEnv) (u : FieldUpd) (es : List DElem) : List String :=
  es.filterMap (fun e => errOf (updateElement env e u))

/-- The field-type tags `updateElement` recognizes. -/
def supportedFieldTypes : List String :=
  ["STRING", "ID", "RICHTEXT", "INT", "FLOAT", "BOOLEAN", "DATETIME", "DATE",
   "ASSET", "LOCATION", "COLOR", "COMPONENT", "JSON", "ENUMERATION", "RELATION"]

lemma updateTextField_id (e : DElem) (s : String) :
    (updateTextField e s).id = e.id := by
  unfold updateTextField
  repeat' split
  all_goals try dsimp only
  all_goals repeat' split
  all_goals rfl

lemma updateRichTextField_id (e : DElem) (v : JsVal) :
    (updateRichTextField e v).id = e.id := by
  unfold updateRichTextField
  repeat' split
  all_goals try dsimp only
  all_goals repeat' split
  all_goals rfl

lemma updateNumberField_id (e : DElem) (v : JsVal) :
    (updateNumberField e v).id = e.id := by
  unfold updateNumberField
  repeat' split
  all_goals try dsimp only
  all_goals repeat' split
  all_goals rfl

lemma updateBooleanField_id (e : DElem) (v : JsVal) :
    (updateBooleanField e v).id = e.id := by
  unfold updateBooleanField
  repeat' split
  all_goals try dsimp only
  all_goals repeat' split
  all_goals rfl

lemma updateDateField_id (env : JsEnv) (e : DElem) (v : JsVal) :
    (updateDateField env e v).id = e.id := by
  unfold updateDateField
  repeat' split
  all_goals try dsimp only
  all_goals repeat' split
  all_goals rfl

lemma updateSingleAsset_id (e : DElem) (v : JsVal) :
    (updateSingleAsset e v).id = e.id := by
  unfold updateSingleAsset
  repeat' split
  all_goals try dsimp only
  all_goals repeat' split
  all_goals rfl

lemma updateAssetField_id (e : DElem) (v : JsVal) :
    (updateAssetField e v).id = e.id := by
  unfold updateAssetField
  repeat' split
  all_goals try dsimp only
  all_goals repeat' split
  all_goals first | rfl | apply updateSingleAsset_id

lemma updateLocationField_id (e : DElem) (v : JsVal) :
    (updateLocationField e v).id = e.id := by
  unfold updateLocationField
  repeat' split
  all_goals try dsimp only
  all_goals repeat' split
  all_goals rfl

lemma updateColorField_id (e : DElem) (v : JsVal) :
    (updateColorField e v).id = e.id := by
  unfold updateColorField
  repeat' split
  all_goals try dsimp only
  all_goals repeat' split
  all_goals rfl

lemma updateComponentField_id (e : DElem) (v : JsVal) :
    (updateComponentField e v).id = e.id := by
  unfold updateComponentField
  repeat' split
  all_goals try dsimp only
  all_goals repeat' split
  all_goals rfl

lemma updateJsonField_id (e : DElem) (v : JsVal) :
    (updateJsonField e v).id = e.id := by
  unfold updateJsonField
  repeat' split
  all_goals try dsimp only
  all_goals repeat' split
  all_goals rfl

lemma updateRelationField_id (e : DElem) (v : JsVal) :
    (updateRelationField e v).id = e.id := by
  unfold updateRelationField
  repeat' split
  all_goals try dsimp only
  all_goals repeat' split
  all_goals rfl

/-- Per-node updates never change the node's identity. -/
lemma updateElement_id (env : JsEnv) (e : DElem) (u : FieldUpd) (e' : DElem)
    (h : updateElement env e u = .ok e') : e'.id = e.id := by
  unfold updateElement at h
  split at h <;>
    first
    | (injection h with h; subst h;
       first
       | apply updateTextField_id
       | apply updateRichTextField_id
       | apply updateNumberField_id
       | apply updateBooleanField_id
       | apply updateDateField_id
       | apply updateAssetField_id
       | apply updateLocationField_id
       | apply updateColorField_id
       | apply updateComponentField_id
       | apply updateJsonField_id
       | apply updateRelationField_id)
    | injection h

/-- The outcome element keeps the node's identity. -/
lemma outcomeElem_id (env : JsEnv) (u : FieldUpd) (e : DElem) :
    (outcomeElem env u e).id = e.id := by
  unfold outcomeElem
  cases h : updateElement env e u with
  | ok e' => exact updateElement_id env e u e' h
  | error _ => rfl

lemma docSet_ids (d : Doc) (i : Nat) (v : DElem) (hv : v.id = i) :
    (docSet d i v).map (fun e => e.id) = d.map (fun e => e.id) := by
  unfold docSet
  rw [List.map_map]
  refine List.map_congr_left (fun x _ => ?_)
  by_cases h : x.id == i <;> simp [Function.comp, h, hv]
  exact ((by simpa using h : x.id = i)).symm

lemma findById_docSet_ne (d : Doc) (i j : Nat) (v : DElem)
    (hv : v.id = i) (hne : j ≠ i) :
    findById (docSet d i v) j = findById d j := by
  induction d with
  | nil => rfl
  | cons x d ih =>
    unfold findById at *
    simp only [docSet, List.map_cons] at *
    by_cases h : x.id == i
    · have hx : x.id = i := by simpa using h
      have hvj : (v.id == j) = false := by
        simp only [hv, beq_eq_false_iff_ne]
        omega
      have hxj : (x.id == j) = false := by
        simp only [hx, beq_eq_false_iff_ne]
        omega
      rw [if_pos h]
      simp only [List.find?, hvj, hxj]
      exact ih
    · rw [if_neg h]
      simp only [List.find?]
      by_cases hp : (x.id == j)
      · simp only [hp]
      · simp only [hp]
        exact ih

lemma docSet_self (d : Doc) (hnodup : (d.map (fun e => e.id)).Nodup) {x : DElem}
    (hx : x ∈ d) : docSet d x.id x = d := by
  unfold docSet
  have hpt : ∀ y ∈ d, (if y.id == x.id then x else y) = y := by
    intro y hy
    by_cases h : y.id == x.id
    · rw [if_pos h]
      exact (nodup_id_inj d hnodup hy hx (by simpa using h)).symm
    · rw [if_neg h]
  calc d.map (fun y => if y.id == x.id then x else y) = d.map id := by
        refine List.map_congr_left (fun y hy => ?_)
        rw [hpt y hy]
        rfl
    _ = d := List.map_id d

/-- Closed form of the per-element update loop: the final document replaces
each targeted element by its individual outcome (successes keep their
update even when другие elements fail; failures leave their element
untouched), the error flag is the disjunction of the per-element failures,
and the last error wins. -/
lemma applyLoop_spec (env : JsEnv) (u : FieldUpd) :
    ∀ (es : List DElem) (acc : LoopAcc),
    (∀ e ∈ es, findById acc.doc e.id = some e) →
    ((es.map (fun e => e.id)).Nodup) →
    ((acc.doc.map (fun e => e.id)).Nodup) →
    applyLoop env u es acc =
      { doc := acc.doc.map (fun x =>
          match es.find? (fun e => e.id == x.id) with
          | some e => outcomeElem env u e
          | none => x),
        hasError := acc.hasError || !(errList env u es).isEmpty,
        lastError := (errList env u es).getLastD acc.lastError } := by
  intro es
  induction es with
  | nil =>
    intro acc _ _ _
    simp [applyLoop, errList, List.getLastD]
  | cons e es ih =>
    intro acc hfind hnodup hdnodup
    have hfe : findById acc.doc e.id = some e := hfind e (List.mem_cons_self _ _)
    have heid : ∀ e' ∈ es, e'.id ≠ e.id := by
      intro e' he' hcontra
      simp only [List.map_cons, List.nodup_cons] at hnodup
      exact hnodup.1 (List.mem_map.mpr ⟨e', he', hcontra⟩)
    have hmem : e ∈ acc.doc := List.mem_of_find?_eq_some hfe
    -- the step accumulator in both success and failure cases
    have hstep : applyLoop env u (e :: es) acc =
        applyLoop env u es
          { doc := docSet acc.doc e.id (outcomeElem env u e),
            hasError := acc.hasError || !(errOf (updateElement env e u)).isNone,
            lastError := (errOf (updateElement env e u)).getD acc.lastError } := by
      unfold applyLoop
      simp only [List.foldl_cons]
      cases hup : updateElement env e u with
      | ok e' => simp [outcomeElem, errOf, hup]
      | error msg =>
        have hself : docSet acc.doc e.id e = acc.doc := by
          have := docSet_self acc.doc hdnodup hmem
          simpa using this
        simp [outcomeElem, errOf, hup, hself]
    rw [hstep]
    have hout : (outcomeElem env u e).id = e.id := outcomeElem_id env u e
    rw [ih _
      (by
        intro e' he'
        simp only
        rw [findById_docSet_ne acc.doc e.id e'.id (outcomeElem env u e) hout
          (heid e' he')]
        exact hfind e' (List.mem_cons_of_mem _ he'))
      (by simp only [List.map_cons, List.nodup_cons] at hnodup; exact hnodup.2)
      (by simp only; rw [docSet_ids acc.doc e.id _ hout]; exact hdnodup)]
    -- collapse the composed maps into the single cons-level map
    have hdoc : (docSet acc.doc e.id (outcomeElem env u e)).map (fun x =>
        match es.find? (fun e0 => e0.id == x.id) with
        | some e0 => outcomeElem env u e0
        | none => x) =
        acc.doc.map (fun x =>
          match (e :: es).find? (fun e0 => e0.id == x.id) with
          | some e0 => outcomeElem env u e0
          | none => x) := by
      unfold docSet
      rw [List.map_map]
      refine List.map_congr_left (fun x hx => ?_)
      by_cases hxe : x.id == e.id
      · have hfnone : es.find? (fun e0 => e0.id == (outcomeElem env u e).id) = none := by
          rw [List.find?_eq_none]
          intro e' he'
          simp [hout]
          exact heid e' he'
        have hfcons : (e :: es).find? (fun e0 => e0.id == x.id) = some e :=
          List.find?_cons_of_pos _ (by simpa using (by simpa using hxe : x.id = e.id).symm)
        simp only [Function.comp, if_pos hxe, hfnone, hfcons]
      · have h1 : (e :: es).find? (fun e0 => e0.id == x.id) =
            es.find? (fun e0 => e0.id == x.id) :=
          List.find?_cons_of_neg _ (by
            simp at hxe ⊢
            exact fun hh => hxe hh.symm)
        simp only [Function.comp, if_neg hxe, h1]
    rw [hdoc]
    have herr : errList env u (e :: es) =
        (errOf (updateElement env e u)).toList ++ errList env u es := by
      unfold errList
      cases hup : updateElement env e u with
      | ok e' => simp [errOf, hup]
      | error msg => simp [errOf, hup]
    cases hup : updateElement env e u with
    | ok e' => simp [herr, errOf, hup]
    | error msg =>
      simp only [herr, errOf, hup, Option.toList_some, List.singleton_append,
        Option.getD_some, Option.isNone_some, LoopAcc.mk.injEq, Bool.not_false,
        List.isEmpty_cons, List.getLastD_eq_getLast?]
      refine ⟨trivial, by simp [Bool.or_assoc], ?_⟩
      rw [List.getLast?_cons]
      simp

lemma applyUpdatePhase_cons (env : JsEnv) (doc : Doc) (u : FieldUpd)
    (e0 : DElem) (rest : List DElem)
    (h : findElements doc u.entryId u.fieldApiId = e0 :: rest) :
    applyUpdatePhase env doc u =
      (let acc := applyLoop env u (e0 :: rest)
        { doc := doc, hasError := false, lastError := "" }
       if acc.hasError then
        (acc.doc, { success := false, error := some acc.lastError, element := none })
       else (acc.doc, { success := true, error := none, element := some e0.id })) := by
  unfold applyUpdatePhase
  rw [h]

/-- C6: per-node failure isolation in `updateField`'s apply phase.  The
final document replaces every matched node by its individual outcome
(failures leave their node untouched, successes are not rolled back and are
not prevented by other nodes' failures); the overall result succeeds
exactly when every matched node updated cleanly, and on failure it carries
the last error message; an unrecognized field-type tag is surfaced as a
per-node failed result, never an escaping exception (`updateElement` is a
total function into `Except`). -/
theorem contentUpdater_per_node_failure_isolation
    (env : JsEnv) (doc : Doc) (u : FieldUpd)
    (hnodup : (doc.map (fun e => e.id)).Nodup)
    (hne : findElements doc u.entryId u.fieldApiId ≠ []) :
    ((applyUpdatePhase env doc u).1 =
      doc.map (fun x =>
        if x.entryAttr == some u.entryId &&
            (u.fieldApiId == "" || x.fieldAttr == some u.fieldApiId) then
          outcomeElem env u x
        else x)) ∧
    ((applyUpdatePhase env doc u).2.success = true ↔
      ∀ e ∈ findElements doc u.entryId u.fieldApiId,
        (updateElement env e u).isOk = true) ∧
    ((applyUpdatePhase env doc u).2.success = false →
      (applyUpdatePhase env doc u).2.error =
        (errList env u (findElements doc u.entryId u.fieldApiId)).getLast?) ∧
    (∀ e : DElem, u.fieldType ∉ supportedFieldTypes →
      updateElement env e u = Except.error "Unsupported field type") := by
  set p := fun x : DElem => x.entryAttr == some u.entryId &&
    (u.fieldApiId == "" || x.fieldAttr == some u.fieldApiId) with hp
  obtain ⟨e0, rest, hes⟩ : ∃ e0 rest,
      findElements doc u.entryId u.fieldApiId = e0 :: rest := by
    cases h : findElements doc u.entryId u.fieldApiId with
    | nil => exact absurd h hne
    | cons a l => exact ⟨a, l, rfl⟩
  have hfilter : findElements doc u.entryId u.fieldApiId = doc.filter p := rfl
  have hsub : ((findElements doc u.entryId u.fieldApiId).map (fun e => e.id)).Nodup := by
    refine List.Sublist.nodup (List.Sublist.map _ ?_) hnodup
    rw [hfilter]
    exact List.filter_sublist doc
  have hfind : ∀ e ∈ findElements doc u.entryId u.fieldApiId,
      findById doc e.id = some e := by
    intro e he
    rw [hfilter] at he
    exact findById_self doc hnodup (List.mem_filter.mp he).1
  have hloop := applyLoop_spec env u (findElements doc u.entryId u.fieldApiId)
    { doc := doc, hasError := false, lastError := "" } hfind hsub hnodup
  have hphase := applyUpdatePhase_cons env doc u e0 rest hes
  rw [← hes] at hphase
  have hdocpt : doc.map (fun x =>
      match (findElements doc u.entryId u.fieldApiId).find? (fun e => e.id == x.id) with
      | some e => outcomeElem env u e
      | none => x) =
      doc.map (fun x => if p x then outcomeElem env u x else x) := by
    refine List.map_congr_left (fun x hx => ?_)
    by_cases hpx : p x
    · have hxes : x ∈ findElements doc u.entryId u.fieldApiId := by
        rw [hfilter]
        exact List.mem_filter.mpr ⟨hx, hpx⟩
      rw [show (findElements doc u.entryId u.fieldApiId).find? (fun e => e.id == x.id) =
        findById (findElements doc u.entryId u.fieldApiId) x.id from rfl,
        findById_self _ hsub hxes, if_pos hpx]
    · have hfn : (findElements doc u.entryId u.fieldApiId).find?
          (fun e => e.id == x.id) = none := by
        rw [List.find?_eq_none]
        intro e he
        rw [hfilter] at he
        have hein : e ∈ doc := (List.mem_filter.mp he).1
        have hpe : p e = true := (List.mem_filter.mp he).2
        intro hbeq
        have heq : e = x := nodup_id_inj doc hnodup hein hx (by simpa using hbeq)
        rw [heq] at hpe
        exact hpx hpe
      rw [hfn, if_neg hpx]
  have hErrIff : (errList env u (findElements doc u.entryId u.fieldApiId)).isEmpty = true ↔
      (∀ e ∈ findElements doc u.entryId u.fieldApiId,
        (updateElement env e u).isOk = true) := by
    rw [List.isEmpty_iff, errList, List.filterMap_eq_nil_iff]
    constructor
    · intro h e he
      have := h e he
      cases hup : updateElement env e u with
      | ok _ => rfl
      | error m => rw [hup] at this; cases this
    · intro h e he
      have := h e he
      cases hup : updateElement env e u with
      | ok _ => rfl
      | error m => rw [hup] at this; cases this
  refine ⟨?_, ?_, ?_, ?_⟩
  · rw [hphase]
    simp only [hloop, Bool.false_or]
    split <;> simpa [hp] using hdocpt
  · rw [hphase]
    simp only [hloop, Bool.false_or]
    by_cases hae : (errList env u (findElements doc u.entryId u.fieldApiId)).isEmpty
    · rw [if_neg (by simp [hae])]
      exact ⟨fun _ => hErrIff.mp hae, fun _ => rfl⟩
    · rw [if_pos (by simp [hae])]
      constructor
      · intro h
        exact absurd h (by simp)
      · intro hcontra
        exact absurd (hErrIff.mpr hcontra) hae
  · rw [hphase]
    simp only [hloop, Bool.false_or]
    by_cases hae : (errList env u (findElements doc u.entryId u.fieldApiId)).isEmpty
    · rw [if_neg (by simp [hae])]
      intro h
      exact absurd h (by simp)
    · rw [if_pos (by simp [hae])]
      intro _
      have hlne : errList env u (findElements doc u.entryId u.fieldApiId) ≠ [] := by
        intro h
        rw [h] at hae
        simp at hae
      show some ((errList env u (findElements doc u.entryId u.fieldApiId)).getLastD "") = _
      rw [List.getLastD_eq_getLast?, List.getLast?_eq_getLast _ hlne]
      simp
  · intro e hnot
    unfold updateElement
    split <;>
      first
      | rfl
      | (rename_i heq
         rw [heq] at hnot
         exact absurd (by decide) hnot)

/-- Two elements both bound to `(e1, title)`. -/
def exDocW : Doc :=
  [mkEl 0 none (some "e1") (some "title"), mkEl 1 none (some "e1") (some "title")]

/-- An update with an unrecognized field-type tag. -/
def exUpdW : FieldUpd :=
  { entryId := "e1", fieldApiId := "title", fieldType := "WIDGET", newValue := .vstr "x" }

/-- Witness for C6: dispatching a `WIDGET`-tagged update over two matched
nodes yields a failed overall result carrying the per-node error, leaves
both nodes untouched, and nothing escapes. -/
theorem contentUpdater_per_node_failure_isolation_witness :
    ((applyUpdatePhase idEnv exDocW exUpdW).1 =
      exDocW.map (fun x =>
        if x.entryAttr == some "e1" &&
            (("title" : String) == "" || x.fieldAttr == some "title") then
          outcomeElem idEnv exUpdW x
        else x)) ∧
    ((applyUpdatePhase idEnv exDocW exUpdW).2.success = true ↔
      ∀ e ∈ findElements exDocW "e1" "title",
        (updateElement idEnv e exUpdW).isOk = true) ∧
    ((applyUpdatePhase idEnv exDocW exUpdW).2.success = false →
      (applyUpdatePhase idEnv exDocW exUpdW).2.error =
        (errList idEnv exUpdW (findElements exDocW "e1" "title")).getLast?) ∧
    (∀ e : DElem, exUpdW.fieldType ∉ supportedFieldTypes →
      updateElement idEnv e exUpdW = Except.error "Unsupported field type") :=
  contentUpdater_per_node_failure_isolation idEnv exDocW exUpdW (by decide) (by decide)

/-! ### Destruction semantics (C10, and parts of C7) -/

/-- The result an `updateField` call resolves with when the updater is
already destroyed. -/
def destroyedRes : UpdResult :=
  { success := false, error := some "ContentUpdater is destroyed", element := none }

/-- A destroyed ContentUpdater is inert: whatever events still arrive, the
document and the applied log never change, the queue stays empty, and every
call resolves with the clean destroyed-failure while every pending timer
continuation resolves with a bare success. -/
lemma destroyed_run (env : JsEnv) (evs : List UEvent) :
    ∀ (w : UpdaterWorld), w.upd.isDestroyed = true → w.upd.updateQueue = [] →
    runUpd env w evs =
      { w with results := w.results ++ evs.filterMap (fun ev =>
          match ev with
          | UEvent.call c _ => some (c, destroyedRes)
          | UEvent.fire c _ => some (c, supersededRes)
          | UEvent.destroy => none) } := by
  induction evs with
  | nil => intro w _ _; simp [runUpd]
  | cons ev evs ih =>
    intro w hd hq
    rw [runUpd_cons]
    cases ev with
    | call c u =>
      rw [show stepUpd env w (UEvent.call c u) =
        { w with results := w.results ++ [(c, destroyedRes)] } from by
        simp [stepUpd, hd, destroyedRes]]
      rw [ih _ (by simpa using hd) (by simpa using hq)]
      simp [List.filterMap_cons]
    | fire c u =>
      rw [stepUpd_fire_superseded env w c u (by simp [qget, hq])]
      rw [ih _ (by simpa using hd) (by simpa using hq)]
      simp [List.filterMap_cons]
    | destroy =>
      have hupd : stepUpd env w UEvent.destroy = w := by
        have : w.upd = { updateQueue := [], isDestroyed := true } := by
          cases hw : w.upd
          simp_all
        simp only [stepUpd, destroyUpdater]
        rw [← this]
      rw [hupd, ih _ hd hq]
      simp [List.filterMap_cons]

/-- C10: destroying the ContentUpdater while an update awaits its debounce
delay neutralizes it — over any continuation of the run, the document and
the applied log never change again, the pending call's continuation
resolves with a plain success (treated as superseded), and any
`updateField` call made after destruction resolves with the clean
destroyed-failure result. -/
theorem contentUpdater_destroy_neutralizes_pending
    (env : JsEnv) (w : UpdaterWorld) (evs : List UEvent) :
    runUpd env (stepUpd env w UEvent.destroy) evs =
      { w with
        upd := { updateQueue := [], isDestroyed := true },
        results := w.results ++ evs.filterMap (fun ev =>
          match ev with
          | UEvent.call c _ => some (c, destroyedRes)
          | UEvent.fire c _ => some (c, supersededRes)
          | UEvent.destroy => none) } := by
  have hstep : stepUpd env w UEvent.destroy =
      { w with upd := { updateQueue := [], isDestroyed := true } } := by
    simp [stepUpd, destroyUpdater]
  rw [hstep, destroyed_run env evs _ (by simp) (by simp)]

/-- C7 counterexample: ContentUpdater.destroy does not cancel the pending
debounce timer.  After `updateField` has enqueued and `destroy()` has run,
the call's continuation still fires (the component's `setTimeout` callback
runs after destruction) and completes the call with a result — so
"destroy() synchronously cancels all of that component's timers, and no
callback of the component fires after destruction" fails on this concrete
run.  (The continuation is inert, which is what the amended claim
states.) -/
theorem contentUpdater_timer_fires_after_destroy :
    (runUpd idEnv (initWorld exDocU) [UEvent.call 0 exUpd1, UEvent.destroy]).results
      = [] ∧
    (runUpd idEnv (initWorld exDocU)
        [UEvent.call 0 exUpd1, UEvent.destroy, UEvent.fire 0 exUpd1]).results
      = [(0, supersededRes)] := by
  constructor <;> decide

/-! ### OverlayManager and Preview teardown (modelled at state level:
geometry, styling and concrete DOM positioning are environment effects with
no bearing on the destruction claims). -/

/-- Mutable state of an OverlayManager instance: whether the two injected
elements are attached and shown, the hovered target, the stored (dead, in
the source never assigned by the hide-delay path) hover timeout handle, and
whether the document/window listeners are attached. -/
structure OverlayState where
  overlayAttached : Bool
  buttonAttached : Bool
  overlayVisible : Bool
  buttonVisible : Bool
  currentTarget : Option Nat
  hoverTimeout : Option Nat
  listenersAttached : Bool
  isDestroyed : Bool

/-- OverlayManager.showOverlay (guarded by destruction and the
`overlayEnabled` config). -/
def showOverlay (overlayEnabled : Bool) (st : OverlayState) (target : Nat) :
    OverlayState :=
  if st.isDestroyed || !overlayEnabled then st
  else { st with currentTarget := some target,
                 overlayVisible := true, buttonVisible := true }

/-- OverlayManager.hideOverlay (guarded by destruction). -/
def hideOverlay (st : OverlayState) : OverlayState :=
  if st.isDestroyed then st
  else { st with currentTarget := none,
                 overlayVisible := false, buttonVisible := false }

/-- OverlayManager.destroy: clear the stored hover timeout handle, remove
the injected elements and detach the listeners.  The hovered target
reference is left as is (as in the source). -/
def destroyOverlay (st : OverlayState) : OverlayState :=
  { st with isDestroyed := true, hoverTimeout := none,
            overlayAttached := false, buttonAttached := false,
            overlayVisible := false, buttonVisible := false,
            listenersAttached := false }

/-- Mutable state of a Preview instance, at teardown granularity. -/
structure PreviewState where
  reg : RegState
  bridge : Option BridgeState
  updater : UpdaterState
  overlay : OverlayState
  saveCallbacks : List Nat
  editClickListenerAttached : Bool
  globalInstalled : Bool

/-- Preview.destroy: tear down every subcomponent, clear the save
subscribers, detach the edit-click listener, and remove the debug global
handle. -/
def destroyPreview (ps : PreviewState) : PreviewState :=
  { reg := destroyReg ps.reg,
    bridge := ps.bridge.map destroyBridge,
    updater := destroyUpdater ps.updater,
    overlay := destroyOverlay ps.overlay,
    saveCallbacks := [],
    editClickListenerAttached := false,
    globalInstalled := false }

/-- C7 (amended): for every component, `destroy()` is idempotent — calling
it a second time is safe and changes nothing — and destroyed components are
inert: the bridge ignores and sends nothing, the registry ignores refresh
and observer callbacks, the overlay ignores show/hide, and the updater
never again touches the document or the applied log (its surviving timer
continuations complete as inert successes).  What `destroy()` does not do
is cancel pending timers themselves (see the counterexample). -/
theorem destroy_is_idempotent_and_inert
    (env : JsEnv) (cfg : List String) (st : BridgeState) (o : String) (d m : JsVal)
    (rs : RegState) (doc : Doc) (muts : List Mutation)
    (w : UpdaterWorld) (evs : List UEvent) (us : UpdaterState)
    (ov : OverlayState) (en : Bool) (t : Nat) (ps : PreviewState) :
    destroyBridge (destroyBridge st) = destroyBridge st ∧
    handleMessage cfg (destroyBridge st) o d = (destroyBridge st, []) ∧
    sendMessage (destroyBridge st) m = (destroyBridge st, false, []) ∧
    destroyReg (destroyReg rs) = destroyReg rs ∧
    refreshReg doc (destroyReg rs) = destroyReg rs ∧
    observerCallbackReg doc (destroyReg rs) muts = destroyReg rs ∧
    destroyUpdater (destroyUpdater us) = destroyUpdater us ∧
    stepUpd env (stepUpd env w UEvent.destroy) UEvent.destroy =
      stepUpd env w UEvent.destroy ∧
    (runUpd env (stepUpd env w UEvent.destroy) evs).doc = w.doc ∧
    (runUpd env (stepUpd env w UEvent.destroy) evs).applied = w.applied ∧
    destroyOverlay (destroyOverlay ov) = destroyOverlay ov ∧
    showOverlay en (destroyOverlay ov) t = destroyOverlay ov ∧
    hideOverlay (destroyOverlay ov) = destroyOverlay ov ∧
    destroyPreview (destroyPreview ps) = destroyPreview ps := by
  have hstep : stepUpd env w UEvent.destroy =
      { w with upd := { updateQueue := [], isDestroyed := true } } := by
    simp [stepUpd, destroyUpdater]
  have hdoc : (runUpd env (stepUpd env w UEvent.destroy) evs).doc = w.doc := by
    rw [hstep, destroyed_run env evs _ rfl rfl]
  have happ : (runUpd env (stepUpd env w UEvent.destroy) evs).applied = w.applied := by
    rw [hstep, destroyed_run env evs _ rfl rfl]
  have hprev : destroyPreview (destroyPreview ps) = destroyPreview ps := by
    cases hb : ps.bridge <;>
      simp [destroyPreview, hb, destroyBridge, destroyReg, destroyUpdater,
        destroyOverlay]
  refine ⟨rfl, by simp [handleMessage, destroyBridge],
    by simp [sendMessage, destroyBridge], rfl,
    by simp [refreshReg, destroyReg],
    by simp [observerCallbackReg, destroyReg], rfl,
    by simp [stepUpd, destroyUpdater], hdoc, happ, rfl,
    by simp [showOverlay, destroyOverlay],
    by simp [hideOverlay, destroyOverlay], hprev⟩

/-! ### C4: the update pipeline vs. the registry -/

/-- C4 counterexample: in `exDocA` the child node inherits its entry id
`e1` from its parent, so the registry returns it for `(e1, title)` — but
`ContentUpdater.findElements` queries the DOM for the explicit
`data-hygraph-entry-id` attribute and never consults the registry, so the
update pipeline matches no element at all: the updated set is not the set
the registry returns, and the inherited node receives no update. -/
theorem contentUpdater_misses_inherited_registrations :
    ((getElementsForEntryField (scanExistingElements exDocA []) "e1" "title").map
      (fun reg => reg.id) = [1]) ∧
    findElements exDocA "e1" "title" = [] := by
  constructor <;> decide

/-- C4 (amended): `ContentUpdater.findElements` selects exactly the
document elements carrying both the entry id and the field id as explicit
attributes; each of these is also registered under the same ids by the
registry's scan, so the updated set is a subset of the registered set —
but a node whose entry id is only inherited from an ancestor is registered
without being updated (see the counterexample). -/
theorem contentUpdater_updates_only_explicit_nodes
    (doc : Doc) (E F : String) (hwf : WfDoc doc) (hF : F ≠ "") :
    ∀ x ∈ findElements doc E F,
      x.entryAttr = some E ∧ x.fieldAttr = some F ∧
      ∃ reg ∈ getElementsForEntryField (scanExistingElements doc []) E F,
        reg.id = x.id := by
  obtain ⟨hnodup, _hparents, hattrs⟩ := hwf
  intro x hxf
  simp only [findElements] at hxf
  have hm := List.mem_filter.mp hxf
  have hx : x ∈ doc := hm.1
  have hcond := hm.2
  simp only [Bool.and_eq_true, Bool.or_eq_true, beq_iff_eq] at hcond
  have hentry : x.entryAttr = some E := hcond.1
  have hfield : x.fieldAttr = some F := by
    rcases hcond.2 with h | h
    · exact absurd h hF
    · exact h
  have hE : E ≠ "" := by
    intro h
    subst h
    exact (hattrs x hx).1 hentry
  exact ⟨hentry, hfield, ⟨x.id, E, some F, orUndefined x.chainAttr⟩,
    List.mem_filter.mpr
      ⟨scan_registers_explicit doc x E F hnodup hx hentry hE hfield hF, by simp⟩,
    rfl⟩

/-- Witness for C4's amended theorem: in `exDocB` the child carries both
attributes explicitly, is matched by the update pipeline, and is
registered under the same ids. -/
theorem contentUpdater_updates_only_explicit_nodes_witness :
    (mkEl 1 (some 0) (some "own") (some "title")).entryAttr = some "own" ∧
    (mkEl 1 (some 0) (some "own") (some "title")).fieldAttr = some "title" ∧
    ∃ reg ∈ getElementsForEntryField (scanExistingElements exDocB []) "own" "title",
      reg.id = (mkEl 1 (some 0) (some "own") (some "title")).id :=
  contentUpdater_updates_only_explicit_nodes exDocB "own" "title"
    ⟨by decide, by decide, by decide⟩ (by decide)
    (mkEl 1 (some 0) (some "own") (some "title")) (by decide)

end PreviewSDK
